import Mathlib

/-!
Verification of the distance-vector routing daemon.

The development shallowly embeds the daemon's routing core (`logic.py`),
wire transport (`network.py`) and operator console (`cli.py`):

* Link costs are Python floats restricted to the values the program
  actually manipulates: decimal numerals and the `inf` sentinel.  They are
  modelled as `Cost`: a rational or the distinguished infinity, with the
  saturating addition and the order Python's `+`, `<`, `<=`, `==` give.
* Python dicts are modelled as insertion-ordered association lists:
  assignment replaces the value of an existing key in place and appends a
  new key at the end, exactly as CPython preserves insertion order.
* `monotonic()` timestamps are passed in explicitly as rationals.
* Fallible operations (`float(...)`, `int(...)`, `struct.pack`,
  `struct.unpack_from`, `inet_ntoa`, dict subscription) return `Option`,
  `none` standing for the raised exception.
-/

namespace DV

set_option maxRecDepth 2048

/-- A Python float cost: a finite rational or the `inf` sentinel. -/
inductive Cost where
  | fin (q : ℚ)
  | infty
deriving DecidableEq

/-- Python `+` on costs: `finite + infinity = infinity`. -/
def Cost.add : Cost → Cost → Cost
  | .fin a, .fin b => .fin (a + b)
  | _, _ => .infty

/-- Python `<` on costs (`x < inf` for finite x, `inf < inf` is false). -/
def Cost.blt : Cost → Cost → Bool
  | .fin a, .fin b => decide (a < b)
  | .fin _, .infty => true
  | .infty, _ => false

/-- Python `<=` on costs. -/
def Cost.ble : Cost → Cost → Bool
  | .fin a, .fin b => decide (a ≤ b)
  | .fin _, .infty => true
  | .infty, .fin _ => false
  | .infty, .infty => true

/-! ## Python dicts as insertion-ordered association lists -/

/-- Dict lookup `m.get(k)`: the value of the first matching key. -/
def alookup {α : Type} (k : Int) : List (Int × α) → Option α
  | [] => none
  | p :: rest => if p.1 = k then some p.2 else alookup k rest

/-- Dict lookup with a default, `m.get(k, d)`. -/
def adflt {α : Type} (d : α) (k : Int) (m : List (Int × α)) : α :=
  (alookup k m).getD d

/-- Dict assignment `m[k] = v`: replace in place, else append at the end. -/
def ainsert {α : Type} (k : Int) (v : α) : List (Int × α) → List (Int × α)
  | [] => [(k, v)]
  | p :: rest => if p.1 = k then (k, v) :: rest else p :: ainsert k v rest

/-- Dict removal `m.pop(k, None)`. -/
def aerase {α : Type} (k : Int) : List (Int × α) → List (Int × α)
  | [] => []
  | p :: rest => if p.1 = k then rest else p :: aerase k rest

/-- The keys of a dict, in insertion order. -/
def keys {α : Type} (m : List (Int × α)) : List Int := m.map Prod.fst

/-- A genuine dict has no repeated key. -/
abbrev NodupKeys {α : Type} (m : List (Int × α)) : Prop := (keys m).Nodup

/-- Python `sorted` on a list of ints. -/
def sortInts (l : List Int) : List Int := l.insertionSort (· ≤ ·)

/-! ## Routing state S (`logic.py`) -/

/-- The mutable module state of `logic.py`. -/
structure DVState where
  myId : Int
  neighbors : List (Int × Cost)
  routing : List (Int × (Option Int × Cost))
  neighborVectors : List (Int × List (Int × Cost))
  lastSeen : List (Int × ℚ)
  updateInterval : ℚ
deriving DecidableEq

/-- Self route plus one seed per finite-cost direct neighbor; shared by
`init` (logic.py lines 36-42) and `_recompute` (lines 112-118), whose
loops are textually identical. -/
def seedTable (myId : Int) (nbrs : List (Int × Cost)) :
    List (Int × (Option Int × Cost)) :=
  nbrs.foldl
    (fun t p => if p.2.blt Cost.infty then ainsert p.1 (some p.1, p.2) t else t)
    [(myId, (none, Cost.fin 0))]

/-- `logic.init`: install identity and neighbor costs, seed the routing
table, clear vectors, and stamp every neighbor's last-seen time. -/
def init (nid : Int) (initialNeighbors : List (Int × Cost)) (now : ℚ)
    (interval : ℚ) : DVState :=
  { myId := nid
    neighbors := initialNeighbors
    routing := seedTable nid initialNeighbors
    neighborVectors := []
    lastSeen := initialNeighbors.foldl (fun m p => ainsert p.1 now m) []
    updateInterval := interval }

/-- The body of `_recompute`'s inner loop (`for nbr, link_cost in
neighbors.items()`): skip a dead link, apply the poison-reverse filter,
and adopt a strictly better candidate. -/
def tryNeighbor (myId : Int) (vecs : List (Int × List (Int × Cost)))
    (dest : Int) (best : Option Int × Cost) (p : Int × Cost) :
    Option Int × Cost :=
  if p.2 = Cost.infty then best
  else
    let nbrVec := adflt [] p.1 vecs
    let nbrBestCost := adflt Cost.infty dest nbrVec
    if adflt Cost.infty myId nbrVec = Cost.fin 0 ∧ dest ≠ p.1 then best
    else
      let candidate := p.2.add nbrBestCost
      if candidate.blt best.2 then (some p.1, candidate) else best

/-- One iteration of `_recompute`'s outer loop over a destination. -/
def destPass (myId : Int) (nbrs : List (Int × Cost))
    (vecs : List (Int × List (Int × Cost)))
    (t : List (Int × (Option Int × Cost))) (dest : Int) :
    List (Int × (Option Int × Cost)) :=
  if dest = myId then t
  else
    let best := nbrs.foldl (tryNeighbor myId vecs dest)
      (adflt (none, Cost.infty) dest t)
    if best.2.blt Cost.infty then ainsert dest best t else t

/-- `sorted(set(new_table.keys()) | set of all vector keys)`. -/
def allDests (t : List (Int × (Option Int × Cost)))
    (vecs : List (Int × List (Int × Cost))) : List Int :=
  sortInts ((keys t ++ (vecs.map (fun q => keys q.2)).flatten).dedup)

/-- The table `_recompute` builds from an id, link costs and vectors. -/
def recomputeTable (myId : Int) (nbrs : List (Int × Cost))
    (vecs : List (Int × List (Int × Cost))) :
    List (Int × (Option Int × Cost)) :=
  let t := seedTable myId nbrs
  (allDests t vecs).foldl (destPass myId nbrs vecs) t

/-- `logic._recompute`: rebuild `routing` from scratch.  The `my_id is
None` guard is unreachable here because the model's state always carries
the id `init` installed. -/
def recompute (st : DVState) : DVState :=
  { st with routing := recomputeTable st.myId st.neighbors st.neighborVectors }

/-! ## Parsing of numeric tokens

Python's `int(...)` and `float(...)` on the whitespace-split console
tokens, modelled for decimal numerals (an optional sign, digits, and for
floats an optional fraction part).  A token outside that shape makes them
return `none`, standing for the raised `ValueError`. -/

/-- Accumulate decimal digits; `none` on a non-digit. -/
def natOfDigitsAux : List Char → Nat → Option Nat
  | [], acc => some acc
  | c :: cs, acc =>
      if c.isDigit then natOfDigitsAux cs (10 * acc + (c.toNat - 48)) else none

/-- A nonempty all-digit string as a natural number. -/
def natOfDigits : List Char → Option Nat
  | [] => none
  | cs => natOfDigitsAux cs 0

/-- Python `int(token)` on a decimal token. -/
def parseInt (s : String) : Option Int :=
  match s.data with
  | '-' :: cs => (natOfDigits cs).map (fun n => -(n : Int))
  | '+' :: cs => (natOfDigits cs).map (fun n => (n : Int))
  | cs => (natOfDigits cs).map (fun n => (n : Int))

/-- An unsigned decimal numeral, with an optional fraction part, as a
rational: accepts `7`, `7.25`, `7.`, `.5`. -/
def parseUnsignedQ (cs : List Char) : Option ℚ :=
  let ip := cs.takeWhile (fun c => c ≠ '.')
  match cs.dropWhile (fun c => c ≠ '.') with
  | [] => (natOfDigits ip).map (fun n => (n : ℚ))
  | _ :: fp =>
      if fp = [] then (natOfDigits ip).map (fun n => (n : ℚ))
      else
        match natOfDigitsAux ip 0, natOfDigits fp with
        | some n, some f => some ((n : ℚ) + (f : ℚ) / ((10 : ℚ) ^ fp.length))
        | _, _ => none

/-- Python `float(...)` on the characters of a decimal token. -/
def parseFloatChars (cs : List Char) : Option ℚ :=
  match cs with
  | '-' :: rest => (parseUnsignedQ rest).map (fun q => -q)
  | '+' :: rest => parseUnsignedQ rest
  | rest => parseUnsignedQ rest

/-- Python `float(token)` on a decimal token. -/
def parseFloat (s : String) : Option ℚ := parseFloatChars s.data

/-- ASCII lowering of one character (`str.lower()` on the ASCII tokens
the console deals in). -/
def lowerChar (c : Char) : Char :=
  if 'A' ≤ c ∧ c ≤ 'Z' then Char.ofNat (c.toNat + 32) else c

/-- Python `str.lower()`. -/
def pyLower (cs : List Char) : List Char := cs.map lowerChar

/-- Python `str.strip()`: drop whitespace at both ends. -/
def pyStrip (cs : List Char) : List Char :=
  ((cs.dropWhile Char.isWhitespace).reverse.dropWhile Char.isWhitespace).reverse

/-- The cost parse inside `update_link`: `cost_str.strip().lower()`,
the literal `"inf"`, else `float(cost_str)`. -/
def parseCost (s : String) : Option Cost :=
  let t := pyLower (pyStrip s.data)
  if t = "inf".data then some Cost.infty
  else (parseFloatChars t).map Cost.fin

/-- `logic.update_link(a, b, cost_str)`.  `none` is the `ValueError`
`float` raises on an unparseable cost, which propagates to the caller
before any state is mutated. -/
def updateLink (a b : Int) (costStr : String) (st : DVState) : Option DVState :=
  if st.myId = a ∨ st.myId = b then
    let other := if st.myId = a then b else a
    match parseCost costStr with
    | none => none
    | some newCost =>
        some (recompute
          { st with
            neighbors := ainsert other newCost st.neighbors
            neighborVectors :=
              if newCost = Cost.infty then aerase other st.neighborVectors
              else st.neighborVectors })
  else some st

/-- The per-entry normalization in `handle_update`:
`cost if cost >= 0 else inf`. -/
def normCost (c : Cost) : Cost := if (Cost.fin 0).ble c then c else Cost.infty

/-- The fresh normalized dict `handle_update` builds from the incoming
vector. -/
def normalizeVec (vector : List (Int × Cost)) : List (Int × Cost) :=
  vector.foldl (fun m p => ainsert p.1 (normCost p.2) m) []

/-- `logic.handle_update(sender_id, vector)` at monotonic time `now`. -/
def handleUpdate (senderId : Int) (vector : List (Int × Cost)) (now : ℚ)
    (st : DVState) : DVState :=
  let st1 := { st with lastSeen := ainsert senderId now st.lastSeen }
  if adflt Cost.infty senderId st1.neighbors = Cost.infty then st1
  else
    recompute
      { st1 with
        neighborVectors :=
          ainsert senderId (normalizeVec vector) st1.neighborVectors }

/-- The expiry test of `maintenance`'s loop: a finite link whose
last-seen time is more than `timeout` ago. -/
def isExpired (now timeout : ℚ) (ls : List (Int × ℚ)) (p : Int × Cost) : Bool :=
  decide (p.2 ≠ Cost.infty) && decide (timeout < now - adflt 0 p.1 ls)

/-- `logic.maintenance()` at monotonic time `now`: expire neighbors not
heard from within `3 × update_interval`, and recompute if any expired. -/
def maintenance (now : ℚ) (st : DVState) : DVState :=
  if st.neighbors = [] then st
  else
    let timeout := 3 * st.updateInterval
    let expired := (st.neighbors.filter (isExpired now timeout st.lastSeen)).map Prod.fst
    if expired = [] then st
    else
      recompute
        { st with
          neighbors := st.neighbors.map (fun p =>
            if isExpired now timeout st.lastSeen p then (p.1, Cost.infty) else p)
          neighborVectors := expired.foldl (fun m k => aerase k m) st.neighborVectors }

/-! ## The recompute procedure as the spec words it

A second definition of the recompute step, written from the
specification's §4.1 "Recompute (Bellman–Ford with poison reverse)"
steps 1-5, to be compared with `recomputeTable` (which is written from
`logic._recompute`). -/

/-- Spec step 2: for every neighbor n with finite `neighbors[n]`, set
`T[n] = (n, neighbors[n])`, over the fresh table of step 1. -/
def specSeedTable (selfId : Int) (nbrs : List (Int × Cost)) :
    List (Int × (Option Int × Cost)) :=
  nbrs.foldl
    (fun t p => if p.2 ≠ Cost.infty then ainsert p.1 (some p.1, p.2) t else t)
    [(selfId, (none, Cost.fin 0))]

/-- Spec step 4 inner iteration: for a neighbor n with finite link cost
L, let V be its recorded vector (empty if absent) and advertised be
`V.get(d, infinity)`; skip n when `V.get(self_id, infinity) = 0` and
`d ≠ n` (poison reverse); adopt the candidate `L + advertised` only
under strict less-than. -/
def specTryNeighbor (selfId : Int) (vecs : List (Int × List (Int × Cost)))
    (d : Int) (b : Option Int × Cost) (p : Int × Cost) : Option Int × Cost :=
  if p.2 ≠ Cost.infty then
    let V := adflt [] p.1 vecs
    let advertised := adflt Cost.infty d V
    if adflt Cost.infty selfId V = Cost.fin 0 ∧ d ≠ p.1 then b
    else if (p.2.add advertised).blt b.2 then (some p.1, p.2.add advertised)
    else b
  else b

/-- Spec steps 1-5: seed the fresh table, build the destination universe
D, and for each d in D in ascending id order (skipping `self_id`)
minimise over the neighbors, writing `T[d]` only when the best cost is
finite. -/
def specRecomputeTable (selfId : Int) (nbrs : List (Int × Cost))
    (vecs : List (Int × List (Int × Cost))) :
    List (Int × (Option Int × Cost)) :=
  let T := specSeedTable selfId nbrs
  let D := sortInts ((keys T ++ (vecs.map (fun q => keys q.2)).flatten).dedup)
  D.foldl (fun t d =>
    if d = selfId then t
    else
      let best := nbrs.foldl (specTryNeighbor selfId vecs d)
        (adflt (none, Cost.infty) d t)
      if best.2.blt Cost.infty then ainsert d best t else t) T

/-! ## Wire transport W (`network.py`)

Datagrams are byte lists.  `struct.pack("!H", v)` range-checks its
argument (raising `struct.error` outside `0..65535`), so it is an
`Option`; likewise `struct.unpack_from` raises on a short buffer and
`inet_ntoa` on anything but 4 bytes. -/

/-- A parsed IPv4 address (the topology file's dotted quad). -/
structure IPv4 where
  o1 : Fin 256
  o2 : Fin 256
  o3 : Fin 256
  o4 : Fin 256
deriving DecidableEq

/-- `socket.inet_aton`: the four raw bytes of an address. -/
def inet_aton (ip : IPv4) : List Nat := [ip.o1.val, ip.o2.val, ip.o3.val, ip.o4.val]

/-- `socket.inet_ntoa`: four raw bytes back to an address; anything else
raises. -/
def inet_ntoa : List Nat → Option IPv4
  | [a, b, c, d] =>
      if h : a < 256 ∧ b < 256 ∧ c < 256 ∧ d < 256 then
        some ⟨⟨a, h.1⟩, ⟨b, h.2.1⟩, ⟨c, h.2.2.1⟩, ⟨d, h.2.2.2⟩⟩
      else none
  | _ => none

/-- `struct.pack("!H", v)`: two big-endian bytes, raising outside
`0..0xFFFF`. -/
def packH (v : Int) : Option (List Nat) :=
  if 0 ≤ v ∧ v < 65536 then some [v.toNat / 256, v.toNat % 256] else none

/-- Python `int(...)` on a float: truncation toward zero. -/
def ratTrunc (q : ℚ) : Int := q.num.tdiv q.den

/-- The cost field of an entry: `int(cost) if cost < inf else 0xFFFF`. -/
def costFieldOf (c : Cost) : Int :=
  match c with
  | .fin q => ratTrunc q
  | .infty => 65535

/-- The topology registry `network.servers`: server id to (ip, port). -/
abbrev Registry : Type := List (Int × (IPv4 × Int))

/-- The routing entry consulted for a packed destination:
`routing.get(dest_id, (None, inf))`, its cost component. -/
def rtCostOf (rt : List (Int × (Option Int × Cost))) (d : Int) : Cost :=
  (adflt (none, Cost.infty) d rt).2

/-- Assembly of one entry's bytes from its three packed fields; a raised
`struct.error` (a `none`) propagates. -/
def entryAssemble (destIp : IPv4) :
    Option (List Nat) → Option (List Nat) → Option (List Nat) →
    Option (List Nat)
  | some pb, some ib, some cb =>
      some (inet_aton destIp ++ pb ++ ib ++ cb)
  | _, _, _ => none

/-- One body of `pack_update`'s loop: the 10 bytes of an entry
(destination ip, port, id, cost), or the raised `struct.error` /
`KeyError`. -/
def entryB (servers : Registry) (rt : List (Int × (Option Int × Cost)))
    (destId : Int) : Option (List Nat) :=
  match alookup destId servers with
  | none => none
  | some (destIp, destPort) =>
      entryAssemble destIp (packH destPort) (packH destId)
        (packH (costFieldOf (rtCostOf rt destId)))

/-- Sequential fallible mapping: the first raised exception aborts. -/
def omapM {α β : Type} (f : α → Option β) : List α → Option (List β)
  | [] => some []
  | a :: l => (f a).bind (fun b => (omapM f l).map (fun bs => b :: bs))

/-- Assembly of the packed message from the header fields and the entry
bytes; any raised `struct.error` (a `none`) propagates. -/
def assembleUpd (myIp : IPv4) :
    Option (List Nat) → Option (List Nat) → Option (List (List Nat)) →
    Option (List Nat)
  | some nb, some pb, some es =>
      some (nb ++ pb ++ inet_aton myIp ++ es.flatten)
  | _, _, _ => none

/-- `network.pack_update()`: header (entry count, sender port, sender
ip) followed by one entry per server of the registry, in ascending id
order. -/
def pack_update (servers : Registry) (myPort : Int) (myIp : IPv4)
    (rt : List (Int × (Option Int × Cost))) : Option (List Nat) :=
  assembleUpd myIp (packH (((sortInts (keys servers)).length : Nat) : Int))
    (packH myPort) (omapM (entryB servers rt) (sortInts (keys servers)))

/-- The image of a routing cost after the pack/unpack round trip: the
cost field of the wire format decoded back (`0xFFFF` to infinity). -/
def wireCostOf (c : Cost) : Cost :=
  if costFieldOf c = 65535 then Cost.infty
  else Cost.fin (((costFieldOf c).toNat : ℚ))

/-- `struct.unpack_from("!H", data, off)`. -/
def readU16 (data : List Nat) (off : Nat) : Option Nat :=
  match data.get? off, data.get? (off + 1) with
  | some b0, some b1 => some (b0 * 256 + b1)
  | _, _ => none

/-- The sender-resolution loop of `unpack_update`: the first server
whose (ip, port) matches exactly. -/
def findSender (servers : Registry) (ip : IPv4) (port : Int) : Option Int :=
  match servers with
  | [] => none
  | (sid, addr) :: rest =>
      if addr.1 = ip ∧ addr.2 = port then some sid else findSender rest ip port

/-- The four reads of one entry (destination ip, port, id, cost) at
offset `off`; any raised exception propagates. -/
def readEntryStep (data : List Nat) (off : Nat) :
    Option (IPv4 × Nat × Nat × Nat) :=
  (inet_ntoa ((data.drop off).take 4)).bind (fun destIp =>
    (readU16 data (off + 4)).bind (fun destPort =>
      (readU16 data (off + 6)).bind (fun destId =>
        (readU16 data (off + 8)).map (fun cost =>
          (destIp, destPort, destId, cost)))))

/-- The wire decoding of a cost field: `0xFFFF` back to infinity. -/
def decodeCost (cost : Nat) : Cost :=
  if cost = 65535 then Cost.infty else Cost.fin (cost : ℚ)

/-- The entry-reading loop of `unpack_update`: `count` entries of 10
bytes each starting at `off`, accumulated into the dv dict. -/
def readEntries (data : List Nat) : Nat → Nat → List (Int × Cost) →
    Option (List (Int × Cost))
  | _, 0, dv => some dv
  | off, count + 1, dv =>
      (readEntryStep data off).bind (fun r =>
        readEntries data (off + 10) count
          (ainsert (r.2.2.1 : Int) (decodeCost r.2.2.2) dv))

/-- `network.unpack_update(data)`: the resolved sender (or `None`) and
the decoded dv dict; `none` is a raised decode exception. -/
def unpack_update (servers : Registry) (data : List Nat) :
    Option (Option Int × List (Int × Cost)) :=
  (readU16 data 0).bind (fun numEntries =>
    (readU16 data 2).bind (fun port =>
      (inet_ntoa ((data.drop 4).take 4)).bind (fun ip =>
        (readEntries data 8 numEntries []).map (fun dv =>
          (findSender servers ip (port : Int), dv)))))

/-- The send loop of `send_to_neighbors`: for each neighbor, dict-access
the registry (a `KeyError` aborts), then send the payload when the link
cost is finite.  `failp` says which transmissions raise `OSError`; a
raise propagates to the surrounding `try` and aborts the loop.  Returns
the performed sends and whether an exception was caught. -/
def sendLoop (failp : Int → Bool) (servers : Registry) (payload : List Nat) :
    List (Int × Cost) → List (Int × List Nat) × Bool
  | [] => ([], false)
  | (nid, cost) :: rest =>
      match alookup nid servers with
      | none => ([], true)
      | some _ =>
          if cost.blt Cost.infty then
            if failp nid then ([], true)
            else
              let r := sendLoop failp servers payload rest
              ((nid, payload) :: r.1, r.2)
          else sendLoop failp servers payload rest

/-- Dispatch on the packed datagram: a raised `pack_update` exception is
caught by the broadcast's `try` with nothing sent. -/
def sendDispatch (failp : Int → Bool) (servers : Registry)
    (nbrs : List (Int × Cost)) :
    Option (List Nat) → List (Int × List Nat) × Bool
  | none => ([], true)
  | some payload => sendLoop failp servers payload nbrs

/-- `network.send_to_neighbors()`: build the datagram once, then send the
identical bytes to each finite-cost neighbor; the single `try` around
both steps means any exception ends the whole broadcast. -/
def send_to_neighbors (failp : Int → Bool) (servers : Registry)
    (myPort : Int) (myIp : IPv4) (st : DVState) :
    List (Int × List Nat) × Bool :=
  sendDispatch failp servers st.neighbors
    (pack_update servers myPort myIp st.routing)

/-! ## Operator console C (`cli.py`)

One iteration of `command_loop` on an already whitespace-split input
line.  Output lines are modelled structurally; the `int(parts[i])`
calls sit outside every `try` in the source, so an unparseable id token
is an uncaught exception that kills the loop (modelled as
`CmdResult.uncaught`, with no line emitted). -/

/-- One line printed to standard output. -/
inductive OutLine where
  | success (cmd : String)
  | invalidArgs (cmd : String)
  | notNeighbor (cmd : String)
  | unknownCmd (cmd : String)
  | data (fields : List Int)
  | diag (cmd : String)
deriving DecidableEq

/-- Whether a line ends in one of the four grader terminators. -/
def isTerm : OutLine → Bool
  | .success _ => true
  | .invalidArgs _ => true
  | .notNeighbor _ => true
  | .unknownCmd _ => true
  | .data _ => false
  | .diag _ => false

/-- The console-visible state: the routing state plus `network.pkt_count`. -/
structure ConsoleSt where
  dv : DVState
  pktCount : Int
deriving DecidableEq

/-- The outcome of processing one input line. -/
inductive CmdResult where
  | ok (out : List OutLine) (st : ConsoleSt) (terminated : Bool)
  | uncaught
deriving DecidableEq

/-- The console rendering of a cost: `int(cost) if cost < inf else 65535`. -/
def costPrintOf (c : Cost) : Int :=
  match c with
  | .fin q => ratTrunc q
  | .infty => 65535

/-- `cli.update(a, b, cost)`: only an endpoint mutates the link; everyone
prints `update SUCCESS`; a `ValueError` from the cost parse is caught and
printed as `update <e>`. -/
def updateCmd (a b : Int) (cost : String) (cst : ConsoleSt) : CmdResult :=
  if cst.dv.myId = a ∨ cst.dv.myId = b then
    match updateLink a b cost cst.dv with
    | some st' => .ok [.success "update"] { cst with dv := st' } false
    | none => .ok [.diag "update"] cst false
  else .ok [.success "update"] cst false

/-- `cli.display()`: the routing table in ascending destination order,
then `display SUCCESS`. -/
def displayCmd (cst : ConsoleSt) : CmdResult :=
  let rows := (sortInts (keys cst.dv.routing)).map (fun dest =>
    let e := adflt (none, Cost.infty) dest cst.dv.routing
    OutLine.data [dest, e.1.getD (-1), costPrintOf e.2])
  .ok (rows ++ [.success "display"]) cst false

/-- `cli.disable(nid)`: refuse a non-neighbor or an already-infinite
link, else set the link to `"inf"` through `update_link`. -/
def disableCmd (nid : Int) (cst : ConsoleSt) : CmdResult :=
  match alookup nid cst.dv.neighbors with
  | none => .ok [.notNeighbor "disable"] cst false
  | some c =>
      if c = Cost.infty then .ok [.notNeighbor "disable"] cst false
      else
        match updateLink cst.dv.myId nid "inf" cst.dv with
        | some st' => .ok [.success "disable"] { cst with dv := st' } false
        | none => .ok [.diag "disable"] cst false

/-- The loop of `cli.crash()` over `list(neighbors.keys())`: the state
after each `update_link(my_id, nid, "inf")`, and whether one raised. -/
def crashLoop : List Int → DVState → DVState × Bool
  | [], st => (st, false)
  | n :: rest, st =>
      match updateLink st.myId n "inf" st with
      | some st' => crashLoop rest st'
      | none => (st, true)

/-- `cli.crash()`: mark every link down, print `crash SUCCESS`, and exit
(the `SystemExit` of `sys.exit(0)` is not an `Exception`, so it escapes
the handler). -/
def crashCmd (cst : ConsoleSt) : CmdResult :=
  let r := crashLoop (keys cst.dv.neighbors) cst.dv
  if r.2 then .ok [.diag "crash"] { cst with dv := r.1 } false
  else .ok [.success "crash"] { cst with dv := r.1 } true

/-- One iteration of `cli.command_loop` on the whitespace-split tokens
of an input line (a blank line is ignored). -/
def processLine (toks : List String) (cst : ConsoleSt) : CmdResult :=
  match toks with
  | [] => .ok [] cst false
  | w :: args =>
      let cmd := pyLower w.data
      if cmd = "update".data then
        match args with
        | [t1, t2, t3] =>
            match parseInt t1, parseInt t2 with
            | some a, some b => updateCmd a b t3 cst
            | _, _ => .uncaught
        | _ => .ok [.invalidArgs "update"] cst false
      else if cmd = "step".data then
        .ok [.success "step"] cst false
      else if cmd = "packets".data then
        .ok [.data [cst.pktCount], .success "packets"] { cst with pktCount := 0 } false
      else if cmd = "display".data then
        displayCmd cst
      else if cmd = "disable".data then
        match args with
        | [t1] =>
            match parseInt t1 with
            | some nid => disableCmd nid cst
            | none => .uncaught
        | _ => .ok [.invalidArgs "disable"] cst false
      else if cmd = "crash".data then
        crashCmd cst
      else .ok [.unknownCmd (String.mk cmd)] cst false

/-! ## Reachable states

The states the daemon can be in after `init` and any interleaving of
the three mutators.  A dict argument (the initial neighbor map) has no
repeated key. -/

/-- Reachability of a routing state from `init` under the three
mutators of `logic.py`. -/
inductive Reachable : DVState → Prop where
  | mkInit : ∀ (nid : Int) (nbrs : List (Int × Cost)) (now interval : ℚ),
      NodupKeys nbrs → Reachable (init nid nbrs now interval)
  | ofUpdateLink : ∀ (st : DVState) (a b : Int) (costStr : String)
      (st' : DVState), Reachable st → updateLink a b costStr st = some st' →
      Reachable st'
  | ofHandleUpdate : ∀ (st : DVState) (s : Int) (v : List (Int × Cost))
      (now : ℚ), Reachable st → Reachable (handleUpdate s v now st)
  | ofMaintenance : ∀ (st : DVState) (now : ℚ), Reachable st →
      Reachable (maintenance now st)

/-! ## Concrete instances and auxiliary predicates -/

/-- The lines a command result printed (an uncaught exception printed
nothing: the `int()` calls come before any output). -/
def emittedLines : CmdResult → List OutLine
  | .ok out _ _ => out
  | .uncaught => []

/-- The amended console precondition: update's and disable's id tokens
parse as ints and update's cost token parses (or is `inf`). -/
def argsParse (toks : List String) : Bool :=
  match toks with
  | [] => true
  | w :: args =>
      (if pyLower w.data = "update".data then
        match args with
        | [t1, t2, t3] => (parseInt t1).isSome && (parseInt t2).isSome &&
            (parseCost t3).isSome
        | _ => true
      else true) &&
      (if pyLower w.data = "disable".data then
        match args with
        | [t1] => (parseInt t1).isSome
        | _ => true
      else true)

/-- A three-server registry for concrete instances. -/
def exampleRegistry : Registry :=
  [(1, (⟨127, 0, 0, 1⟩, 2001)), (2, (⟨127, 0, 0, 1⟩, 2002)),
    (3, (⟨127, 0, 0, 1⟩, 2003))]

/-- Node 1 of the three-server mesh with finite links to 2 and 3 and an
empty routing table. -/
def exampleNetState : DVState :=
  { myId := 1
    neighbors := [(2, Cost.fin 1), (3, Cost.fin 1)]
    routing := []
    neighborVectors := []
    lastSeen := []
    updateInterval := 1 }

/-- A transmission-failure oracle: only the send to server 2 raises. -/
def failAt2 : Int → Bool := fun n => n == 2

/-- A single-server registry for concrete wire-format instances. -/
def oneServerRegistry : Registry := [(1, (⟨127, 0, 0, 1⟩, 2001))]

/-- The per-entry invariant: a `none` next hop only for the self route at
cost 0, otherwise a next hop that is a finite-cost neighbor whose link
cost bounds the entry's cost from below. -/
def EntryProp (myId : Int) (nbrs : List (Int × Cost)) (d : Int)
    (e : Option Int × Cost) : Prop :=
  (e.1 = none → d = myId ∧ e.2 = Cost.fin 0) ∧
  ∀ n, e.1 = some n → ∃ lc, alookup n nbrs = some lc ∧ lc ≠ Cost.infty ∧
    lc.ble e.2 = true

/-- The entry invariant over a whole table. -/
def TableInv (myId : Int) (nbrs : List (Int × Cost))
    (t : List (Int × (Option Int × Cost))) : Prop :=
  ∀ d e, alookup d t = some e → EntryProp myId nbrs d e

/-- Every recorded neighbor vector holds only nonnegative costs (the
normalization in `handle_update` guarantees it). -/
def VecsNonneg (vecs : List (Int × List (Int × Cost))) : Prop :=
  ∀ p ∈ vecs, ∀ q ∈ p.2, (Cost.fin 0).ble q.2 = true

/-- The invariant the best-candidate scan preserves: a `some` next hop is
a finite-cost neighbor bounding the candidate cost, and a `none` next hop
still has infinite cost. -/
def BestProp (nbrs : List (Int × Cost)) (b : Option Int × Cost) : Prop :=
  (∀ n, b.1 = some n → ∃ lc, alookup n nbrs = some lc ∧ lc ≠ Cost.infty ∧
    lc.ble b.2 = true) ∧
  (b.1 = none → b.2 = Cost.infty)

/-- The compound invariant the reachability induction carries. -/
def StateInv (st : DVState) : Prop :=
  TableInv st.myId st.neighbors st.routing ∧
    VecsNonneg st.neighborVectors ∧ NodupKeys st.neighbors

/-- A tiny concrete state the witnesses instantiate: node 1 with the
single configured neighbor 2 at cost 1. -/
def exampleState : DVState := init 1 [(2, Cost.fin 1)] 0 1

/-! ## Association-list lemmas -/

theorem alookup_ainsert {α : Type} (k : Int) (v : α) (m : List (Int × α))
    (d : Int) :
    alookup d (ainsert k v m) = if k = d then some v else alookup d m := by
  induction m with
  | nil => simp [ainsert, alookup]
  | cons p rest ih =>
      by_cases hpk : p.1 = k
      · subst hpk
        by_cases hpd : p.1 = d <;> simp [ainsert, alookup, hpd]
      · simp only [ainsert, hpk, if_false]
        by_cases hpd : p.1 = d
        · have hkd : ¬ k = d := by
            intro hc
            exact hpk (by rw [hpd, hc])
          simp [alookup, hpd, hkd]
        · simp [alookup, hpd, ih]

theorem alookup_mem {α : Type} {m : List (Int × α)} {d : Int} {v : α}
    (h : alookup d m = some v) : (d, v) ∈ m := by
  induction m with
  | nil => simp [alookup] at h
  | cons p rest ih =>
      by_cases hpd : p.1 = d
      · simp [alookup, hpd] at h
        refine List.mem_cons.mpr (Or.inl ?_)
        rw [← hpd, ← h]
      · simp [alookup, hpd] at h
        exact List.mem_cons_of_mem p (ih h)

theorem mem_ainsert {α : Type} {x : Int × α} {k : Int} {v : α}
    {m : List (Int × α)} (h : x ∈ ainsert k v m) : x = (k, v) ∨ x ∈ m := by
  induction m with
  | nil =>
      simp [ainsert] at h
      exact Or.inl h
  | cons p rest ih =>
      by_cases hpk : p.1 = k
      · simp only [ainsert, hpk, if_true, List.mem_cons] at h
        rcases h with h | h
        · exact Or.inl h
        · exact Or.inr (List.mem_cons_of_mem p h)
      · simp only [ainsert, hpk, if_false, List.mem_cons] at h
        rcases h with h | h
        · right
          rw [h]
          exact List.mem_cons_self p rest
        · rcases ih h with h' | h'
          · exact Or.inl h'
          · exact Or.inr (List.mem_cons_of_mem p h')

theorem aerase_sublist {α : Type} (k : Int) (m : List (Int × α)) :
    (aerase k m).Sublist m := by
  induction m with
  | nil => simp [aerase]
  | cons p rest ih =>
      by_cases hpk : p.1 = k
      · simp only [aerase, hpk, if_true]
        exact List.sublist_cons_self p rest
      · simp only [aerase, hpk, if_false]
        exact ih.cons₂ p

theorem keys_ainsert_mem {α : Type} {k : Int} (v : α) {m : List (Int × α)}
    (h : k ∈ keys m) : keys (ainsert k v m) = keys m := by
  induction m with
  | nil => simp [keys] at h
  | cons p rest ih =>
      by_cases hpk : p.1 = k
      · simp [ainsert, keys, hpk]
      · simp only [keys, List.map_cons, List.mem_cons] at h
        rcases h with h | h
        · exact absurd h.symm hpk
        · simp only [ainsert, hpk, if_false, keys, List.map_cons]
          rw [show List.map Prod.fst (ainsert k v rest) = keys (ainsert k v rest) from rfl,
            ih h]
          rfl

theorem keys_ainsert_not_mem {α : Type} {k : Int} (v : α) {m : List (Int × α)}
    (h : k ∉ keys m) : keys (ainsert k v m) = keys m ++ [k] := by
  induction m with
  | nil => simp [ainsert, keys]
  | cons p rest ih =>
      simp only [keys, List.map_cons, List.mem_cons] at h
      push_neg at h
      have hpk : ¬ p.1 = k := fun hc => h.1 hc.symm
      simp only [ainsert, hpk, if_false, keys, List.map_cons, List.cons_append]
      rw [show List.map Prod.fst (ainsert k v rest) = keys (ainsert k v rest) from rfl,
        ih h.2]
      rfl

theorem nodup_ainsert {α : Type} {k : Int} {v : α} {m : List (Int × α)}
    (h : NodupKeys m) : NodupKeys (ainsert k v m) := by
  by_cases hk : k ∈ keys m
  · unfold NodupKeys
    rw [keys_ainsert_mem v hk]
    exact h
  · unfold NodupKeys
    rw [keys_ainsert_not_mem v hk]
    refine List.Nodup.append h (List.nodup_singleton k) ?_
    intro a ha hb
    rw [List.mem_singleton] at hb
    exact hk (hb ▸ ha)

theorem nodup_aerase {α : Type} {k : Int} {m : List (Int × α)}
    (h : NodupKeys m) : NodupKeys (aerase k m) :=
  List.Nodup.sublist ((aerase_sublist k m).map Prod.fst) h

theorem alookup_of_nodup_mem {α : Type} {m : List (Int × α)} {p : Int × α}
    (hn : NodupKeys m) (hp : p ∈ m) : alookup p.1 m = some p.2 := by
  induction m with
  | nil => simp at hp
  | cons q rest ih =>
      have hn' : q.1 ∉ List.map Prod.fst rest ∧ (List.map Prod.fst rest).Nodup := by
        simpa [NodupKeys, keys] using hn
      rcases List.mem_cons.mp hp with h | h
      · rw [h]
        simp [alookup]
      · have hq : ¬ q.1 = p.1 := by
          intro hc
          apply hn'.1
          rw [hc]
          exact List.mem_map_of_mem Prod.fst h
        simp only [alookup, hq, if_false]
        exact ih hn'.2 h

/-! ## Cost lemmas -/

theorem Cost.ble_refl (c : Cost) : c.ble c = true := by
  cases c <;> simp [Cost.ble]

theorem Cost.blt_infty_iff (c : Cost) :
    c.blt Cost.infty = true ↔ c ≠ Cost.infty := by
  cases c <;> simp [Cost.blt]

theorem Cost.ble_add_right {a b : Cost} (h : (Cost.fin 0).ble b = true) :
    a.ble (a.add b) = true := by
  cases a with
  | infty => cases b <;> simp [Cost.add, Cost.ble]
  | fin qa =>
      cases b with
      | infty => simp [Cost.add, Cost.ble]
      | fin qb =>
          simp only [Cost.ble, decide_eq_true_eq] at h
          simp only [Cost.add, Cost.ble, decide_eq_true_eq]
          linarith

theorem normCost_nonneg (c : Cost) : (Cost.fin 0).ble (normCost c) = true := by
  by_cases h : (Cost.fin 0).ble c = true
  · rw [normCost, if_pos h]
    exact h
  · rw [normCost, if_neg h]
    simp [Cost.ble]

/-! ## C1: the code's recompute equals the spec's procedure -/

theorem specSeedTable_eq (selfId : Int) (nbrs : List (Int × Cost)) :
    specSeedTable selfId nbrs = seedTable selfId nbrs := by
  unfold specSeedTable seedTable
  congr 1
  funext t p
  cases hp : p.2 with
  | infty => simp [hp, Cost.blt]
  | fin q => simp [hp, Cost.blt]

theorem specTryNeighbor_eq (selfId : Int)
    (vecs : List (Int × List (Int × Cost))) (d : Int) :
    specTryNeighbor selfId vecs d = tryNeighbor selfId vecs d := by
  funext b p
  unfold specTryNeighbor tryNeighbor
  cases hp : p.2 with
  | infty => simp [hp]
  | fin q => simp [hp]

theorem recomputeTable_eq_spec (myId : Int) (nbrs : List (Int × Cost))
    (vecs : List (Int × List (Int × Cost))) :
    recomputeTable myId nbrs vecs = specRecomputeTable myId nbrs vecs := by
  unfold recomputeTable specRecomputeTable allDests destPass
  rw [specSeedTable_eq]
  simp only [specTryNeighbor_eq]

/-- C1: after any call to recompute — as triggered by `update_link`, by
`handle_update` with a finite sender link, or by `maintenance` when some
neighbor expired — the routing table equals the table of the specified
Bellman-Ford procedure with poison reverse: self mapped to (none, 0),
finite direct-neighbor seeds, the destination universe of seeded and
advertised keys in ascending id order, the poison-reverse skip, strictly
less-than adoption (so seeds beat equal-cost multi-hop paths), and an
entry only when the best cost is finite. -/
theorem recompute_meets_spec (st : DVState) :
    (recompute st).routing =
      specRecomputeTable st.myId st.neighbors st.neighborVectors ∧
    (∀ a b costStr st', updateLink a b costStr st = some st' →
      (st.myId = a ∨ st.myId = b) →
      st'.routing =
        specRecomputeTable st'.myId st'.neighbors st'.neighborVectors) ∧
    (∀ s v now, adflt Cost.infty s st.neighbors ≠ Cost.infty →
      (handleUpdate s v now st).routing =
        specRecomputeTable (handleUpdate s v now st).myId
          (handleUpdate s v now st).neighbors
          (handleUpdate s v now st).neighborVectors) ∧
    (∀ now, maintenance now st ≠ st →
      (maintenance now st).routing =
        specRecomputeTable (maintenance now st).myId
          (maintenance now st).neighbors
          (maintenance now st).neighborVectors) := by
  refine ⟨recomputeTable_eq_spec _ _ _, ?_, ?_, ?_⟩
  · intro a b costStr st' h hin
    rw [updateLink, if_pos hin] at h
    cases hc : parseCost costStr with
    | none =>
        rw [hc] at h
        exact absurd h (by simp)
    | some c =>
        rw [hc] at h
        rw [← Option.some.inj h]
        exact recomputeTable_eq_spec _ _ _
  · intro s v now hfin
    rw [handleUpdate, if_neg hfin]
    exact recomputeTable_eq_spec _ _ _
  · intro now hch
    rw [maintenance] at hch ⊢
    by_cases h0 : st.neighbors = []
    · rw [if_pos h0] at hch
      exact absurd rfl hch
    · rw [if_neg h0] at hch ⊢
      by_cases h1 : (st.neighbors.filter
          (isExpired now (3 * st.updateInterval) st.lastSeen)).map Prod.fst = []
      · rw [if_pos h1] at hch
        exact absurd rfl hch
      · rw [if_neg h1]
        exact recomputeTable_eq_spec _ _ _

/-- Concrete instance of `recompute_meets_spec` with its hypotheses
discharged at a state where a vector has been received. -/
theorem recompute_meets_spec_witness :
    (handleUpdate 2 [(1, Cost.fin 1), (2, Cost.fin 0), (3, Cost.fin 1)] 5
        (init 1 [(2, Cost.fin 1), (3, Cost.fin 4)] 0 1)).routing =
      specRecomputeTable
        (handleUpdate 2 [(1, Cost.fin 1), (2, Cost.fin 0), (3, Cost.fin 1)] 5
          (init 1 [(2, Cost.fin 1), (3, Cost.fin 4)] 0 1)).myId
        (handleUpdate 2 [(1, Cost.fin 1), (2, Cost.fin 0), (3, Cost.fin 1)] 5
          (init 1 [(2, Cost.fin 1), (3, Cost.fin 4)] 0 1)).neighbors
        (handleUpdate 2 [(1, Cost.fin 1), (2, Cost.fin 0), (3, Cost.fin 1)] 5
          (init 1 [(2, Cost.fin 1), (3, Cost.fin 4)] 0 1)).neighborVectors :=
  (recompute_meets_spec (init 1 [(2, Cost.fin 1), (3, Cost.fin 4)] 0 1)).2.2.1
    2 [(1, Cost.fin 1), (2, Cost.fin 0), (3, Cost.fin 1)] 5 (by decide)

/-! ## C2: the routing-entry invariant over reachable states -/

theorem tableInv_base (myId : Int) (nbrs : List (Int × Cost)) :
    TableInv myId nbrs [(myId, (none, Cost.fin 0))] := by
  intro d e he
  by_cases hd : myId = d
  · simp only [alookup, hd, if_pos rfl] at he
    cases Option.some.inj he
    exact ⟨fun _ => ⟨hd.symm, rfl⟩, fun n hn => by simp at hn⟩
  · simp only [alookup, hd, if_false] at he
    simp [alookup] at he

theorem tableInv_seed_fold (myId : Int) (nbrs : List (Int × Cost))
    (l : List (Int × Cost)) (t : List (Int × (Option Int × Cost)))
    (hl : ∀ p ∈ l, alookup p.1 nbrs = some p.2)
    (ht : TableInv myId nbrs t) :
    TableInv myId nbrs (l.foldl
      (fun t p =>
        if p.2.blt Cost.infty then ainsert p.1 (some p.1, p.2) t else t) t) := by
  induction l generalizing t with
  | nil => exact ht
  | cons p rest ih =>
      simp only [List.foldl_cons]
      refine ih _ (fun q hq => hl q (List.mem_cons_of_mem p hq)) ?_
      by_cases hp : p.2.blt Cost.infty = true
      · rw [if_pos hp]
        intro d e he
        rw [alookup_ainsert] at he
        by_cases hd : p.1 = d
        · rw [if_pos hd] at he
          cases Option.some.inj he
          refine ⟨fun h0 => by simp at h0, fun n hn => ?_⟩
          cases Option.some.inj hn
          exact ⟨p.2, hl p (List.mem_cons_self p rest),
            (Cost.blt_infty_iff p.2).mp hp, Cost.ble_refl p.2⟩
        · rw [if_neg hd] at he
          exact ht d e he
      · rw [if_neg hp]
        exact ht

theorem tableInv_seedTable (myId : Int) (nbrs : List (Int × Cost))
    (hn : NodupKeys nbrs) : TableInv myId nbrs (seedTable myId nbrs) :=
  tableInv_seed_fold myId nbrs nbrs _
    (fun p hp => alookup_of_nodup_mem hn hp) (tableInv_base myId nbrs)

theorem adv_nonneg (vecs : List (Int × List (Int × Cost)))
    (hv : VecsNonneg vecs) (n dest : Int) :
    (Cost.fin 0).ble (adflt Cost.infty dest (adflt [] n vecs)) = true := by
  unfold adflt
  cases hvec : alookup n vecs with
  | none => simp [alookup, Cost.ble]
  | some vec =>
      simp only [Option.getD_some]
      cases hc : alookup dest vec with
      | none => simp [Cost.ble]
      | some c =>
          simp only [Option.getD_some]
          exact hv (n, vec) (alookup_mem hvec) (dest, c) (alookup_mem hc)

theorem bestProp_tryNeighbor (myId : Int)
    (vecs : List (Int × List (Int × Cost))) (dest : Int)
    (nbrs : List (Int × Cost)) (b : Option Int × Cost) (p : Int × Cost)
    (hp : alookup p.1 nbrs = some p.2) (hv : VecsNonneg vecs)
    (hb : BestProp nbrs b) :
    BestProp nbrs (tryNeighbor myId vecs dest b p) := by
  by_cases h1 : p.2 = Cost.infty
  · rw [tryNeighbor, if_pos h1]
    exact hb
  · rw [tryNeighbor, if_neg h1]
    show BestProp nbrs
      (if adflt Cost.infty myId (adflt [] p.1 vecs) = Cost.fin 0 ∧ dest ≠ p.1
        then b
        else
          if (p.2.add (adflt Cost.infty dest (adflt [] p.1 vecs))).blt b.2
          then (some p.1, p.2.add (adflt Cost.infty dest (adflt [] p.1 vecs)))
          else b)
    by_cases h2 : adflt Cost.infty myId (adflt [] p.1 vecs) = Cost.fin 0 ∧
        dest ≠ p.1
    · rw [if_pos h2]
      exact hb
    · rw [if_neg h2]
      by_cases h3 :
          (p.2.add (adflt Cost.infty dest (adflt [] p.1 vecs))).blt b.2 = true
      · rw [if_pos h3]
        refine ⟨fun n hn => ?_, fun h0 => by simp at h0⟩
        cases Option.some.inj hn
        exact ⟨p.2, hp, h1, Cost.ble_add_right (adv_nonneg vecs hv p.1 dest)⟩
      · rw [if_neg h3]
        exact hb

theorem bestProp_fold (myId : Int) (nbrs : List (Int × Cost))
    (l : List (Int × Cost)) (vecs : List (Int × List (Int × Cost)))
    (dest : Int) (b : Option Int × Cost)
    (hl : ∀ p ∈ l, alookup p.1 nbrs = some p.2) (hv : VecsNonneg vecs)
    (hb : BestProp nbrs b) :
    BestProp nbrs (l.foldl (tryNeighbor myId vecs dest) b) := by
  induction l generalizing b with
  | nil => exact hb
  | cons p rest ih =>
      simp only [List.foldl_cons]
      exact ih _ (fun q hq => hl q (List.mem_cons_of_mem p hq))
        (bestProp_tryNeighbor myId vecs dest nbrs b p
          (hl p (List.mem_cons_self p rest)) hv hb)

theorem tableInv_destPass (myId : Int) (nbrs : List (Int × Cost))
    (vecs : List (Int × List (Int × Cost)))
    (t : List (Int × (Option Int × Cost))) (dest : Int)
    (hn : NodupKeys nbrs) (hv : VecsNonneg vecs)
    (ht : TableInv myId nbrs t) :
    TableInv myId nbrs (destPass myId nbrs vecs t dest) := by
  by_cases hd : dest = myId
  · rw [destPass, if_pos hd]
    exact ht
  · rw [destPass, if_neg hd]
    show TableInv myId nbrs
      (if (nbrs.foldl (tryNeighbor myId vecs dest)
            (adflt (none, Cost.infty) dest t)).2.blt Cost.infty
        then ainsert dest
          (nbrs.foldl (tryNeighbor myId vecs dest)
            (adflt (none, Cost.infty) dest t)) t
        else t)
    have hstart : BestProp nbrs (adflt (none, Cost.infty) dest t) := by
      unfold adflt
      cases he : alookup dest t with
      | none =>
          exact ⟨fun n hn' => by simp at hn', fun _ => rfl⟩
      | some e =>
          have hep := ht dest e he
          exact ⟨hep.2, fun h0 => absurd (hep.1 h0).1 hd⟩
    have hbest := bestProp_fold myId nbrs nbrs vecs dest _
      (fun p hp => alookup_of_nodup_mem hn hp) hv hstart
    by_cases hfin : (nbrs.foldl (tryNeighbor myId vecs dest)
        (adflt (none, Cost.infty) dest t)).2.blt Cost.infty = true
    · rw [if_pos hfin]
      intro d e he
      rw [alookup_ainsert] at he
      by_cases hdd : dest = d
      · rw [if_pos hdd] at he
        cases Option.some.inj he
        exact ⟨fun h0 => absurd (hbest.2 h0)
            ((Cost.blt_infty_iff _).mp hfin),
          hbest.1⟩
      · rw [if_neg hdd] at he
        exact ht d e he
    · rw [if_neg hfin]
      exact ht

theorem tableInv_destFold (myId : Int) (nbrs : List (Int × Cost))
    (vecs : List (Int × List (Int × Cost))) (dests : List Int)
    (t : List (Int × (Option Int × Cost)))
    (hn : NodupKeys nbrs) (hv : VecsNonneg vecs)
    (ht : TableInv myId nbrs t) :
    TableInv myId nbrs (dests.foldl (destPass myId nbrs vecs) t) := by
  induction dests generalizing t with
  | nil => exact ht
  | cons d rest ih =>
      simp only [List.foldl_cons]
      exact ih _ (tableInv_destPass myId nbrs vecs t d hn hv ht)

theorem tableInv_recomputeTable (myId : Int) (nbrs : List (Int × Cost))
    (vecs : List (Int × List (Int × Cost)))
    (hn : NodupKeys nbrs) (hv : VecsNonneg vecs) :
    TableInv myId nbrs (recomputeTable myId nbrs vecs) :=
  tableInv_destFold myId nbrs vecs _ _ hn hv (tableInv_seedTable myId nbrs hn)

theorem vecsNonneg_aerase {k : Int} {vecs : List (Int × List (Int × Cost))}
    (hv : VecsNonneg vecs) : VecsNonneg (aerase k vecs) :=
  fun p hp => hv p ((aerase_sublist k vecs).subset hp)

theorem vecsNonneg_fold_aerase (ks : List Int)
    {vecs : List (Int × List (Int × Cost))} (hv : VecsNonneg vecs) :
    VecsNonneg (ks.foldl (fun m k => aerase k m) vecs) := by
  induction ks generalizing vecs with
  | nil => exact hv
  | cons k rest ih =>
      simp only [List.foldl_cons]
      exact ih (vecsNonneg_aerase hv)

theorem fold_norm_nonneg (l start : List (Int × Cost))
    (h : ∀ q ∈ start, (Cost.fin 0).ble q.2 = true) :
    ∀ q ∈ l.foldl (fun m p => ainsert p.1 (normCost p.2) m) start,
      (Cost.fin 0).ble q.2 = true := by
  induction l generalizing start with
  | nil => exact h
  | cons p rest ih =>
      simp only [List.foldl_cons]
      refine ih _ ?_
      intro r hr
      rcases mem_ainsert hr with h' | h'
      · rw [h']
        exact normCost_nonneg p.2
      · exact h r h'

theorem normalizeVec_nonneg (vector : List (Int × Cost)) :
    ∀ q ∈ normalizeVec vector, (Cost.fin 0).ble q.2 = true :=
  fold_norm_nonneg vector [] (by intro q hq; simp at hq)

theorem vecsNonneg_ainsert_norm {s : Int} {vector : List (Int × Cost)}
    {vecs : List (Int × List (Int × Cost))} (hv : VecsNonneg vecs) :
    VecsNonneg (ainsert s (normalizeVec vector) vecs) := by
  intro p hp
  rcases mem_ainsert hp with h | h
  · intro q hq
    rw [h] at hq
    exact normalizeVec_nonneg vector q hq
  · exact hv p h

theorem keys_map_expire (m : List (Int × Cost)) (f : Int × Cost → Bool) :
    keys (m.map (fun p => if f p then (p.1, Cost.infty) else p)) = keys m := by
  unfold keys
  rw [List.map_map]
  congr 1
  funext p
  by_cases h : f p = true <;> simp [h]

theorem reachable_stateInv (st : DVState) (h : Reachable st) : StateInv st := by
  induction h with
  | mkInit nid nbrs now interval hn =>
      refine ⟨tableInv_seedTable nid nbrs hn, ?_, hn⟩
      intro p hp
      simp [init] at hp
  | ofUpdateLink st a b costStr st' hr heq ih =>
      rw [updateLink] at heq
      by_cases hin : st.myId = a ∨ st.myId = b
      · rw [if_pos hin] at heq
        cases hc : parseCost costStr with
        | none =>
            rw [hc] at heq
            simp at heq
        | some c =>
            rw [hc] at heq
            rw [← Option.some.inj heq]
            have hvecs : VecsNonneg
                (if c = Cost.infty then
                  aerase (if st.myId = a then b else a) st.neighborVectors
                else st.neighborVectors) := by
              by_cases hcinf : c = Cost.infty
              · rw [if_pos hcinf]
                exact vecsNonneg_aerase ih.2.1
              · rw [if_neg hcinf]
                exact ih.2.1
            exact ⟨tableInv_recomputeTable _ _ _ (nodup_ainsert ih.2.2) hvecs,
              hvecs, nodup_ainsert ih.2.2⟩
      · rw [if_neg hin] at heq
        rw [← Option.some.inj heq]
        exact ih
  | ofHandleUpdate st s v now hr ih =>
      rw [handleUpdate]
      by_cases hfin : adflt Cost.infty s st.neighbors = Cost.infty
      · rw [if_pos hfin]
        exact ih
      · rw [if_neg hfin]
        have hvecs : VecsNonneg
            (ainsert s (normalizeVec v) st.neighborVectors) :=
          vecsNonneg_ainsert_norm ih.2.1
        exact ⟨tableInv_recomputeTable _ _ _ ih.2.2 hvecs, hvecs, ih.2.2⟩
  | ofMaintenance st now hr ih =>
      rw [maintenance]
      by_cases h0 : st.neighbors = []
      · rw [if_pos h0]
        exact ih
      · rw [if_neg h0]
        by_cases h1 : (st.neighbors.filter
            (isExpired now (3 * st.updateInterval) st.lastSeen)).map Prod.fst = []
        · rw [if_pos h1]
          exact ih
        · rw [if_neg h1]
          have hnodup : NodupKeys (st.neighbors.map (fun p =>
              if isExpired now (3 * st.updateInterval) st.lastSeen p then
                (p.1, Cost.infty)
              else p)) := by
            unfold NodupKeys
            rw [keys_map_expire]
            exact ih.2.2
          have hvecs : VecsNonneg
              (((st.neighbors.filter
                  (isExpired now (3 * st.updateInterval) st.lastSeen)).map
                    Prod.fst).foldl (fun m k => aerase k m) st.neighborVectors) :=
            vecsNonneg_fold_aerase _ ih.2.1
          exact ⟨tableInv_recomputeTable _ _ _ hnodup hvecs, hvecs, hnodup⟩

/-- C2: in every state reachable from `init` by `update_link`,
`handle_update` and `maintenance`, every routing entry `(h, c)` for
destination `d` has `h = none` only for `d = self_id` with `c = 0`, and
otherwise `h` is a neighbor whose current link cost is finite with
`c ≥ neighbors[h]`. -/
theorem routing_entry_invariant (st : DVState) (h : Reachable st) (d : Int)
    (e : Option Int × Cost) (he : alookup d st.routing = some e) :
    (e.1 = none → d = st.myId ∧ e.2 = Cost.fin 0) ∧
    ∀ n, e.1 = some n → ∃ lc, alookup n st.neighbors = some lc ∧
      lc ≠ Cost.infty ∧ lc.ble e.2 = true :=
  (reachable_stateInv st h).1 d e he

/-- Concrete instance of `routing_entry_invariant` at a reachable state:
the direct route to neighbor 2 has a finite next-hop link bounding its
cost. -/
theorem routing_entry_invariant_witness :
    ∃ lc, alookup 2 (init 1 [(2, Cost.fin 1)] 0 1).neighbors = some lc ∧
      lc ≠ Cost.infty ∧ lc.ble (Cost.fin 1) = true :=
  (routing_entry_invariant (init 1 [(2, Cost.fin 1)] 0 1)
      (Reachable.mkInit 1 [(2, Cost.fin 1)] 0 1
        (by show ([2] : List Int).Nodup; decide))
      2 (some 2, Cost.fin 1) (by decide)).2 2 rfl

/-! ## C3: the handle_update contract -/

theorem alookup_fold_pairs_not_mem {β : Type} (l : List (Int × Cost))
    (g : Cost → β) (start : List (Int × β)) (d : Int) (hd : d ∉ keys l) :
    alookup d (l.foldl (fun m p => ainsert p.1 (g p.2) m) start) =
      alookup d start := by
  induction l generalizing start with
  | nil => rfl
  | cons p rest ih =>
      simp only [keys, List.map_cons, List.mem_cons] at hd
      push_neg at hd
      simp only [List.foldl_cons]
      rw [ih _ (by simpa [keys] using hd.2), alookup_ainsert,
        if_neg (fun hc => hd.1 hc.symm)]

theorem alookup_fold_pairs {β : Type} (l : List (Int × Cost)) (g : Cost → β)
    (start : List (Int × β)) (hn : NodupKeys l) (p : Int × Cost)
    (hp : p ∈ l) :
    alookup p.1 (l.foldl (fun m q => ainsert q.1 (g q.2) m) start) =
      some (g p.2) := by
  induction l generalizing start with
  | nil => simp at hp
  | cons q rest ih =>
      have hn' : q.1 ∉ keys rest ∧ NodupKeys rest := by
        simpa [NodupKeys, keys] using hn
      simp only [List.foldl_cons]
      rcases List.mem_cons.mp hp with h | h
      · rw [h, alookup_fold_pairs_not_mem rest g _ q.1 hn'.1,
          alookup_ainsert, if_pos rfl]
      · exact ih _ hn'.2 h

/-- C3: `handle_update(s, V)` stamps `last_seen[s] = now` unconditionally;
when `neighbors[s]` is infinity (or absent) the vector is discarded and
nothing else changes; when it is finite, `neighbor_vectors[s]` is replaced
wholesale by the normalized vector — every negative cost becoming
infinity — and recompute runs. -/
theorem handle_update_contract (s : Int) (v : List (Int × Cost)) (now : ℚ)
    (st : DVState) :
    alookup s (handleUpdate s v now st).lastSeen = some now ∧
    (adflt Cost.infty s st.neighbors = Cost.infty →
      handleUpdate s v now st =
        { st with lastSeen := ainsert s now st.lastSeen }) ∧
    (adflt Cost.infty s st.neighbors ≠ Cost.infty →
      handleUpdate s v now st =
        recompute
          { st with
            lastSeen := ainsert s now st.lastSeen
            neighborVectors := ainsert s (normalizeVec v) st.neighborVectors }) ∧
    (NodupKeys v → ∀ p ∈ v, alookup p.1 (normalizeVec v) =
      some (if (Cost.fin 0).ble p.2 then p.2 else Cost.infty)) := by
  refine ⟨?_, ?_, ?_, ?_⟩
  · rw [handleUpdate]
    by_cases hfin : adflt Cost.infty s st.neighbors = Cost.infty
    · rw [if_pos hfin]
      show alookup s (ainsert s now st.lastSeen) = some now
      rw [alookup_ainsert, if_pos rfl]
    · rw [if_neg hfin]
      show alookup s (ainsert s now st.lastSeen) = some now
      rw [alookup_ainsert, if_pos rfl]
  · intro hfin
    rw [handleUpdate, if_pos hfin]
  · intro hfin
    rw [handleUpdate, if_neg hfin]
  · intro hn p hp
    exact alookup_fold_pairs v normCost [] hn p hp

/-- Concrete instance of `handle_update_contract`: a vector from a
sender with an infinite link only stamps `last_seen`. -/
theorem handle_update_contract_witness :
    handleUpdate 9 [(3, Cost.fin 7)] 5 exampleState =
      { exampleState with
        lastSeen := ainsert 9 5 exampleState.lastSeen } :=
  (handle_update_contract 9 [(3, Cost.fin 7)] 5 exampleState).2.1 (by decide)

/-! ## C6: update_link does not clamp negative costs -/

/-- C6 counterexample: `update_link(1, 2, "-5")` on node 1 stores the
cost -5 in `neighbors[2]`; it is not the infinity sentinel. -/
theorem update_link_negative_counterexample :
    (updateLink 1 2 "-5" (init 1 [(2, Cost.fin 1)] 0 1)).map
      (fun s => alookup 2 s.neighbors) = some (some (Cost.fin (-5))) ∧
    Cost.fin (-5) ≠ Cost.infty := by
  constructor
  · decide
  · decide

/-- C6 amended: a numeric cost token that parses to a negative value is
stored as-is in `neighbors[other]` — `update_link` performs no clamping
(only `handle_update`'s normalization maps negatives to infinity). -/
theorem update_link_negative_amended (a b : Int) (s : String) (q : ℚ)
    (st : DVState) (hq : parseCost s = some (Cost.fin q)) (hneg : q < 0)
    (hin : st.myId = a ∨ st.myId = b) :
    ∃ st', updateLink a b s st = some st' ∧
      alookup (if st.myId = a then b else a) st'.neighbors =
        some (Cost.fin q) := by
  rw [updateLink, if_pos hin, hq]
  refine ⟨_, rfl, ?_⟩
  show alookup (if st.myId = a then b else a)
    (ainsert (if st.myId = a then b else a) (Cost.fin q) st.neighbors) =
      some (Cost.fin q)
  rw [alookup_ainsert, if_pos rfl]

/-- Concrete instance of `update_link_negative_amended` at the token
"-5". -/
theorem update_link_negative_amended_witness :
    ∃ st', updateLink 1 2 "-5" (init 1 [(2, Cost.fin 1)] 0 1) = some st' ∧
      alookup (if (init 1 [(2, Cost.fin 1)] 0 1).myId = 1 then 2 else 1)
        st'.neighbors = some (Cost.fin (-5)) :=
  update_link_negative_amended 1 2 "-5" (-5) (init 1 [(2, Cost.fin 1)] 0 1)
    (by decide) (by norm_num) (by decide)

/-! ## C7: the neighbor key set can grow -/

/-- C7 counterexample: `update_link(1, 3, "5")` on node 1, whose only
configured neighbor is 2, adds the new key 3. -/
theorem neighbors_keys_counterexample :
    (updateLink 1 3 "5" (init 1 [(2, Cost.fin 1)] 0 1)).map
      (fun s => keys s.neighbors) = some [2, 3] ∧
    ([2, 3] : List Int) ≠ [2] ∧
    keys (init 1 [(2, Cost.fin 1)] 0 1).neighbors = [2] := by
  refine ⟨by decide, by decide, by decide⟩

/-- C7 amended: the neighbor key set is invariant under `handle_update`
and `maintenance`, and under `update_link` whenever the non-self endpoint
is already a configured neighbor (or the node is not an endpoint); an
`update_link` whose non-self endpoint is not configured appends that
endpoint as a new key. -/
theorem neighbors_keys_amended (st : DVState) :
    (∀ s v now, keys (handleUpdate s v now st).neighbors =
      keys st.neighbors) ∧
    (∀ now, keys (maintenance now st).neighbors = keys st.neighbors) ∧
    (∀ a b cs st', updateLink a b cs st = some st' →
      ((st.myId = a ∨ st.myId = b) →
        (if st.myId = a then b else a) ∈ keys st.neighbors) →
      keys st'.neighbors = keys st.neighbors) ∧
    (∀ a b cs st' c, updateLink a b cs st = some st' →
      (st.myId = a ∨ st.myId = b) → parseCost cs = some c →
      (if st.myId = a then b else a) ∉ keys st.neighbors →
      keys st'.neighbors =
        keys st.neighbors ++ [if st.myId = a then b else a]) := by
  refine ⟨?_, ?_, ?_, ?_⟩
  · intro s v now
    rw [handleUpdate]
    by_cases hfin : adflt Cost.infty s st.neighbors = Cost.infty
    · rw [if_pos hfin]
    · rw [if_neg hfin]
      rfl
  · intro now
    rw [maintenance]
    by_cases h0 : st.neighbors = []
    · rw [if_pos h0]
    · rw [if_neg h0]
      by_cases h1 : (st.neighbors.filter
          (isExpired now (3 * st.updateInterval) st.lastSeen)).map Prod.fst = []
      · rw [if_pos h1]
      · rw [if_neg h1]
        exact keys_map_expire st.neighbors _
  · intro a b cs st' h hmem
    rw [updateLink] at h
    by_cases hin : st.myId = a ∨ st.myId = b
    · rw [if_pos hin] at h
      cases hc : parseCost cs with
      | none =>
          rw [hc] at h
          simp at h
      | some c =>
          rw [hc] at h
          rw [← Option.some.inj h]
          exact keys_ainsert_mem _ (hmem hin)
    · rw [if_neg hin] at h
      rw [← Option.some.inj h]
  · intro a b cs st' c h hin hc hmem
    rw [updateLink, if_pos hin, hc] at h
    rw [← Option.some.inj h]
    exact keys_ainsert_not_mem _ hmem

/-- Concrete instance of `neighbors_keys_amended`: `update_link` on a
configured neighbor keeps the key set. -/
theorem neighbors_keys_amended_witness :
    keys (handleUpdate 2 [(3, Cost.fin 1)] 7
      (init 1 [(2, Cost.fin 1)] 0 1)).neighbors =
      keys (init 1 [(2, Cost.fin 1)] 0 1).neighbors :=
  (neighbors_keys_amended (init 1 [(2, Cost.fin 1)] 0 1)).1 2
    [(3, Cost.fin 1)] 7

/-! ## C9: a transmission error aborts the rest of the broadcast -/

theorem sendLoop_payload (failp : Int → Bool) (servers : Registry)
    (payload : List Nat) (l : List (Int × Cost)) :
    ∀ x ∈ (sendLoop failp servers payload l).1, x.2 = payload := by
  induction l with
  | nil =>
      intro x hx
      simp [sendLoop] at hx
  | cons p rest ih =>
      obtain ⟨nid, cost⟩ := p
      intro x hx
      cases h : alookup nid servers with
      | none => simp [sendLoop, h] at hx
      | some addr =>
          simp only [sendLoop, h] at hx
          by_cases hc : cost.blt Cost.infty = true
          · rw [if_pos hc] at hx
            by_cases hf : failp nid = true
            · rw [if_pos hf] at hx
              simp at hx
            · rw [if_neg hf] at hx
              rcases List.mem_cons.mp hx with hx' | hx'
              · rw [hx']
              · exact ih x hx'
          · rw [if_neg hc] at hx
            exact ih x hx

theorem sendLoop_ok (failp : Int → Bool) (servers : Registry)
    (payload : List Nat) (l : List (Int × Cost))
    (hreg : ∀ p ∈ l, (alookup p.1 servers).isSome = true)
    (hok : ∀ p ∈ l, p.2.blt Cost.infty = true → failp p.1 = false) :
    sendLoop failp servers payload l =
      ((l.filter (fun p => p.2.blt Cost.infty)).map
        (fun p => (p.1, payload)), false) := by
  induction l with
  | nil => rfl
  | cons p rest ih =>
      obtain ⟨nid, cost⟩ := p
      cases h : alookup nid servers with
      | none =>
          have := hreg (nid, cost) (List.mem_cons_self _ _)
          rw [h] at this
          simp at this
      | some addr =>
          have hrest := ih (fun q hq => hreg q (List.mem_cons_of_mem _ hq))
            (fun q hq => hok q (List.mem_cons_of_mem _ hq))
          by_cases hc : cost.blt Cost.infty = true
          · have hf : failp nid = false :=
              hok (nid, cost) (List.mem_cons_self _ _) hc
            simp only [sendLoop, h, if_pos hc, hf, Bool.false_eq_true,
              if_false, hrest]
            simp [List.filter_cons, hc]
          · simp only [sendLoop, h, if_neg hc, hrest]
            simp [List.filter_cons, hc]

/-- C9 counterexample: with finite neighbors 2 and 3 registered and a
transmission failure at 2 only, nothing at all is sent — the error
prevents the send to the remaining finite-cost neighbor 3. -/
theorem send_abort_counterexample :
    (send_to_neighbors failAt2 exampleRegistry 2001 ⟨127, 0, 0, 1⟩
      exampleNetState).1 = [] ∧
    alookup 3 exampleNetState.neighbors = some (Cost.fin 1) ∧
    failAt2 3 = false ∧
    (alookup 3 exampleRegistry).isSome = true := by
  refine ⟨by decide, by decide, by decide, by decide⟩

/-- C9 amended: the datagram is built once and the identical bytes go to
the finite-cost neighbors in dict order; but the single try wrapping the
whole loop means a transmission error aborts the remainder of the
broadcast.  When no send fails and every neighbor is registered, every
finite-cost neighbor receives the payload. -/
theorem send_broadcast_amended (failp : Int → Bool) (servers : Registry)
    (myPort : Int) (myIp : IPv4) (st : DVState) (payload : List Nat)
    (hp : pack_update servers myPort myIp st.routing = some payload) :
    (∀ x ∈ (send_to_neighbors failp servers myPort myIp st).1,
      x.2 = payload) ∧
    ((∀ p ∈ st.neighbors, (alookup p.1 servers).isSome = true) →
      (∀ p ∈ st.neighbors, p.2.blt Cost.infty = true → failp p.1 = false) →
      send_to_neighbors failp servers myPort myIp st =
        ((st.neighbors.filter (fun p => p.2.blt Cost.infty)).map
          (fun p => (p.1, payload)), false)) := by
  constructor
  · intro x hx
    rw [send_to_neighbors, hp] at hx
    exact sendLoop_payload failp servers payload st.neighbors x hx
  · intro hreg hok
    rw [send_to_neighbors, hp]
    exact sendLoop_ok failp servers payload st.neighbors hreg hok

/-- Concrete instance of `send_broadcast_amended` with no failures: both
finite neighbors receive the identical packed datagram. -/
theorem send_broadcast_amended_witness :
    send_to_neighbors (fun _ => false) exampleRegistry 2001 ⟨127, 0, 0, 1⟩
      exampleNetState =
      ((exampleNetState.neighbors.filter (fun p => p.2.blt Cost.infty)).map
        (fun p => (p.1, (pack_update exampleRegistry 2001 ⟨127, 0, 0, 1⟩
          exampleNetState.routing).getD [])), false) :=
  (send_broadcast_amended (fun _ => false) exampleRegistry 2001 ⟨127, 0, 0, 1⟩
      exampleNetState
      ((pack_update exampleRegistry 2001 ⟨127, 0, 0, 1⟩
        exampleNetState.routing).getD [])
      (by decide)).2 (by decide) (by decide)

/-! ## C8: console terminator discipline -/

theorem updateLink_isSome (a b : Int) (cs : String) (st : DVState)
    (h : (parseCost cs).isSome = true) :
    (updateLink a b cs st).isSome = true := by
  rw [updateLink]
  by_cases hin : st.myId = a ∨ st.myId = b
  · rw [if_pos hin]
    cases hc : parseCost cs with
    | none =>
        rw [hc] at h
        simp at h
    | some c => simp
  · rw [if_neg hin]
    rfl

theorem crashLoop_no_raise (l : List Int) (st : DVState) :
    (crashLoop l st).2 = false := by
  induction l generalizing st with
  | nil => rfl
  | cons n rest ih =>
      have h : (updateLink st.myId n "inf" st).isSome = true :=
        updateLink_isSome st.myId n "inf" st (by decide)
      obtain ⟨st', hst⟩ := Option.isSome_iff_exists.mp h
      rw [crashLoop, hst]
      exact ih st'

/-- C8 counterexample: the input line `update x 2 3` has four tokens, so
`a = int(parts[1])` runs — outside every try — and its ValueError kills
the command loop before any line is printed: no terminator is emitted. -/
theorem console_terminator_counterexample :
    processLine ["update", "x", "2", "3"] ⟨exampleState, 0⟩ =
      CmdResult.uncaught ∧
    (emittedLines (processLine ["update", "x", "2", "3"]
      ⟨exampleState, 0⟩)).filter isTerm = [] := by
  refine ⟨by decide, by decide⟩

/-- Helper: `cli.update` with a parseable cost token prints exactly
`update SUCCESS`, whether or not this node is an endpoint. -/
theorem updateCmd_ok (a b : Int) (cs : String) (cst : ConsoleSt)
    (h : (parseCost cs).isSome = true) :
    ∃ st', updateCmd a b cs cst = CmdResult.ok [.success "update"] st' false := by
  unfold updateCmd
  by_cases hin : cst.dv.myId = a ∨ cst.dv.myId = b
  · rw [if_pos hin]
    obtain ⟨st', hst⟩ := Option.isSome_iff_exists.mp
      (updateLink_isSome a b cs cst.dv h)
    rw [hst]
    exact ⟨_, rfl⟩
  · rw [if_neg hin]
    exact ⟨cst, rfl⟩

theorem disableCmd_ok (nid : Int) (cst : ConsoleSt) :
    ∃ t st', disableCmd nid cst = CmdResult.ok [t] st' false ∧
      isTerm t = true := by
  unfold disableCmd
  cases h : alookup nid cst.dv.neighbors with
  | none => exact ⟨_, _, rfl, rfl⟩
  | some c =>
      show ∃ t st',
        (if c = Cost.infty then
          CmdResult.ok [OutLine.notNeighbor "disable"] cst false
        else
          match updateLink cst.dv.myId nid "inf" cst.dv with
          | some st' =>
              CmdResult.ok [OutLine.success "disable"] { cst with dv := st' }
                false
          | none => CmdResult.ok [OutLine.diag "disable"] cst false) =
          CmdResult.ok [t] st' false ∧ isTerm t = true
      by_cases hc : c = Cost.infty
      · rw [if_pos hc]
        exact ⟨_, _, rfl, rfl⟩
      · rw [if_neg hc]
        obtain ⟨st', hst⟩ := Option.isSome_iff_exists.mp
          (updateLink_isSome cst.dv.myId nid "inf" cst.dv (by decide))
        rw [hst]
        exact ⟨_, _, rfl, rfl⟩

theorem crashCmd_ok (cst : ConsoleSt) :
    ∃ st', crashCmd cst = CmdResult.ok [.success "crash"] st' true := by
  show ∃ st',
    (if (crashLoop (keys cst.dv.neighbors) cst.dv).2 = true then
      CmdResult.ok [OutLine.diag "crash"]
        { cst with dv := (crashLoop (keys cst.dv.neighbors) cst.dv).1 } false
    else
      CmdResult.ok [OutLine.success "crash"]
        { cst with dv := (crashLoop (keys cst.dv.neighbors) cst.dv).1 } true) =
      CmdResult.ok [OutLine.success "crash"] st' true
  rw [crashLoop_no_raise]
  exact ⟨_, rfl⟩

theorem displayCmd_ok (cst : ConsoleSt) :
    ∃ pre st',
      displayCmd cst = CmdResult.ok (pre ++ [.success "display"]) st' false ∧
      ∀ x ∈ pre, isTerm x = false := by
  refine ⟨_, _, rfl, ?_⟩
  intro x hx
  obtain ⟨dest, _, hdx⟩ := List.mem_map.mp hx
  rw [← hdx]
  rfl

/-- C8 amended: every nonblank console line whose update/disable id
tokens parse as ints — and, for update, whose cost token parses or is
`inf` — produces exactly one terminator line, with only data lines
before it.  An unparseable id token raises an uncaught ValueError in
`command_loop` (the `int(parts[i])` calls sit outside every try), so no
line at all is emitted; an unparseable update cost token, by contrast,
raises inside `logic.update_link` under `cli.update`'s try/except: an
endpoint node prints the caught exception as `update <e>` (not a
terminator) and a non-endpoint node never parses the cost and prints
`update SUCCESS`. -/
theorem console_terminator_amended (toks : List String) (cst : ConsoleSt) :
    (toks ≠ [] → argsParse toks = true →
      ∃ out st' ex, processLine toks cst = CmdResult.ok out st' ex ∧
        ∃ pre t, out = pre ++ [t] ∧ isTerm t = true ∧
          ∀ x ∈ pre, isTerm x = false) ∧
    (∀ t1 t2 t3, toks = ["update", t1, t2, t3] →
      (parseInt t1 = none ∨ parseInt t2 = none) →
      processLine toks cst = CmdResult.uncaught) ∧
    (∀ t1, toks = ["disable", t1] → parseInt t1 = none →
      processLine toks cst = CmdResult.uncaught) ∧
    (∀ t1 t2 t3 a b, toks = ["update", t1, t2, t3] →
      parseInt t1 = some a → parseInt t2 = some b → parseCost t3 = none →
      ((cst.dv.myId = a ∨ cst.dv.myId = b) →
        processLine toks cst = CmdResult.ok [.diag "update"] cst false) ∧
      (¬(cst.dv.myId = a ∨ cst.dv.myId = b) →
        processLine toks cst = CmdResult.ok [.success "update"] cst false)) := by
  refine ⟨fun hne hargs => ?_, ?_, ?_, ?_⟩
  rotate_left 1
  case _ =>
    intro t1 t2 t3 ht hbad
    subst ht
    simp only [processLine]
    rw [if_pos (by decide : pyLower "update".data = "update".data)]
    show (match parseInt t1, parseInt t2 with
      | some a, some b => updateCmd a b t3 cst
      | _, _ => CmdResult.uncaught) = CmdResult.uncaught
    cases hp1 : parseInt t1 with
    | none => cases hp2 : parseInt t2 <;> rfl
    | some a =>
        cases hp2 : parseInt t2 with
        | none => rfl
        | some b =>
            rcases hbad with h | h
            · rw [hp1] at h
              cases h
            · rw [hp2] at h
              cases h
  case _ =>
    intro t1 ht hbad
    subst ht
    simp only [processLine]
    rw [if_neg (by decide : ¬ pyLower "disable".data = "update".data),
      if_neg (by decide : ¬ pyLower "disable".data = "step".data),
      if_neg (by decide : ¬ pyLower "disable".data = "packets".data),
      if_neg (by decide : ¬ pyLower "disable".data = "display".data),
      if_pos (by decide : pyLower "disable".data = "disable".data)]
    show (match parseInt t1 with
      | some nid => disableCmd nid cst
      | none => CmdResult.uncaught) = CmdResult.uncaught
    rw [hbad]
  case _ =>
    intro t1 t2 t3 a b ht ha hb hcost
    subst ht
    have hred : processLine ["update", t1, t2, t3] cst = updateCmd a b t3 cst := by
      simp only [processLine]
      rw [if_pos (by decide : pyLower "update".data = "update".data)]
      show (match parseInt t1, parseInt t2 with
        | some a, some b => updateCmd a b t3 cst
        | _, _ => CmdResult.uncaught) = updateCmd a b t3 cst
      rw [ha, hb]
    constructor
    · intro hin
      have hul : updateLink a b t3 cst.dv = none := by
        unfold updateLink
        rw [if_pos hin, hcost]
      rw [hred]
      unfold updateCmd
      rw [if_pos hin, hul]
    · intro hnin
      rw [hred]
      unfold updateCmd
      rw [if_neg hnin]
  cases toks with
  | nil => exact absurd rfl hne
  | cons w args =>
      simp only [processLine]
      simp only [argsParse] at hargs
      by_cases h1 : pyLower w.data = "update".data
      · rw [if_pos h1]
        rw [if_pos h1] at hargs
        have hnd : ¬ pyLower w.data = "disable".data := by
          rw [h1]
          decide
        rw [if_neg hnd, Bool.and_true] at hargs
        match args with
        | [] =>
            exact ⟨_, _, _, rfl, [], _, rfl, rfl,
              fun x hx => absurd hx (List.not_mem_nil x)⟩
        | [t1] =>
            exact ⟨_, _, _, rfl, [], _, rfl, rfl,
              fun x hx => absurd hx (List.not_mem_nil x)⟩
        | [t1, t2] =>
            exact ⟨_, _, _, rfl, [], _, rfl, rfl,
              fun x hx => absurd hx (List.not_mem_nil x)⟩
        | [t1, t2, t3] =>
            simp only [Bool.and_eq_true] at hargs
            obtain ⟨a, ha⟩ := Option.isSome_iff_exists.mp hargs.1.1
            obtain ⟨b, hb⟩ := Option.isSome_iff_exists.mp hargs.1.2
            show ∃ out st' ex,
              (match parseInt t1, parseInt t2 with
                | some a, some b => updateCmd a b t3 cst
                | _, _ => CmdResult.uncaught) = CmdResult.ok out st' ex ∧
                ∃ pre t, out = pre ++ [t] ∧ isTerm t = true ∧
                  ∀ x ∈ pre, isTerm x = false
            rw [ha, hb]
            obtain ⟨st', hu⟩ := updateCmd_ok a b t3 cst hargs.2
            exact ⟨_, _, _, hu, [], _, rfl, rfl,
              fun x hx => absurd hx (List.not_mem_nil x)⟩
        | t1 :: t2 :: t3 :: t4 :: rest =>
            exact ⟨_, _, _, rfl, [], _, rfl, rfl,
              fun x hx => absurd hx (List.not_mem_nil x)⟩
      · rw [if_neg h1]
        by_cases h2 : pyLower w.data = "step".data
        · rw [if_pos h2]
          exact ⟨_, _, _, rfl, [], _, rfl, rfl,
            fun x hx => absurd hx (List.not_mem_nil x)⟩
        · rw [if_neg h2]
          by_cases h3 : pyLower w.data = "packets".data
          · rw [if_pos h3]
            refine ⟨_, _, _, rfl, [.data [cst.pktCount]], _, rfl, rfl, ?_⟩
            intro x hx
            rw [List.mem_singleton.mp hx]
            rfl
          · rw [if_neg h3]
            by_cases h4 : pyLower w.data = "display".data
            · rw [if_pos h4]
              obtain ⟨pre, st', hd, hpre⟩ := displayCmd_ok cst
              exact ⟨_, _, _, hd, pre, _, rfl, rfl, hpre⟩
            · rw [if_neg h4]
              by_cases h5 : pyLower w.data = "disable".data
              · rw [if_pos h5]
                rw [if_neg (fun hc => h1 hc), if_pos h5, Bool.true_and]
                  at hargs
                match args with
                | [] =>
                    exact ⟨_, _, _, rfl, [], _, rfl, rfl,
                      fun x hx => absurd hx (List.not_mem_nil x)⟩
                | [t1] =>
                    have hsome : (parseInt t1).isSome = true := hargs
                    obtain ⟨nid, hn⟩ := Option.isSome_iff_exists.mp hsome
                    show ∃ out st' ex,
                      (match parseInt t1 with
                        | some nid => disableCmd nid cst
                        | none => CmdResult.uncaught) =
                          CmdResult.ok out st' ex ∧
                        ∃ pre t, out = pre ++ [t] ∧ isTerm t = true ∧
                          ∀ x ∈ pre, isTerm x = false
                    rw [hn]
                    obtain ⟨t, st', hd, hterm⟩ := disableCmd_ok nid cst
                    exact ⟨_, _, _, hd, [], t, rfl, hterm,
                      fun x hx => absurd hx (List.not_mem_nil x)⟩
                | t1 :: t2 :: rest =>
                    exact ⟨_, _, _, rfl, [], _, rfl, rfl,
                      fun x hx => absurd hx (List.not_mem_nil x)⟩
              · rw [if_neg h5]
                by_cases h6 : pyLower w.data = "crash".data
                · rw [if_pos h6]
                  obtain ⟨st', hc⟩ := crashCmd_ok cst
                  exact ⟨_, _, _, hc, [], _, rfl, rfl,
                    fun x hx => absurd hx (List.not_mem_nil x)⟩
                · rw [if_neg h6]
                  exact ⟨_, _, _, rfl, [], _, rfl, rfl,
                    fun x hx => absurd hx (List.not_mem_nil x)⟩

/-- Concrete instances of `console_terminator_amended`: the line
`display`, two lines with unparseable id tokens, and the line
`update 1 2 oops` on an endpoint (node 1) and a non-endpoint view. -/
theorem console_terminator_amended_witness :
    (∃ out st' ex,
      processLine ["display"] ⟨exampleState, 0⟩ = CmdResult.ok out st' ex ∧
      ∃ pre t, out = pre ++ [t] ∧ isTerm t = true ∧
        ∀ x ∈ pre, isTerm x = false) ∧
    processLine ["update", "x", "2", "3"] ⟨exampleState, 0⟩ =
      CmdResult.uncaught ∧
    processLine ["disable", "z"] ⟨exampleState, 0⟩ = CmdResult.uncaught ∧
    processLine ["update", "1", "2", "oops"] ⟨exampleState, 0⟩ =
      CmdResult.ok [.diag "update"] ⟨exampleState, 0⟩ false ∧
    processLine ["update", "2", "3", "oops"] ⟨exampleState, 0⟩ =
      CmdResult.ok [.success "update"] ⟨exampleState, 0⟩ false :=
  ⟨(console_terminator_amended ["display"] ⟨exampleState, 0⟩).1
      (by decide) (by decide),
    (console_terminator_amended ["update", "x", "2", "3"]
      ⟨exampleState, 0⟩).2.1 "x" "2" "3" rfl (Or.inl (by decide)),
    (console_terminator_amended ["disable", "z"] ⟨exampleState, 0⟩).2.2.1
      "z" rfl (by decide),
    ((console_terminator_amended ["update", "1", "2", "oops"]
      ⟨exampleState, 0⟩).2.2.2 "1" "2" "oops" 1 2 rfl (by decide) (by decide)
      (by decide)).1 (by decide),
    ((console_terminator_amended ["update", "2", "3", "oops"]
      ⟨exampleState, 0⟩).2.2.2 "2" "3" "oops" 2 3 rfl (by decide) (by decide)
      (by decide)).2 (by decide)⟩

/-! ## Wire-format lemmas -/

theorem get_append_len {α : Type} (l r : List α) (i : Nat) :
    (l ++ r).get? (l.length + i) = r.get? i := by
  induction l with
  | nil => simp
  | cons a t ih =>
      have h : (a :: t).length + i = (t.length + i) + 1 := by
        simp only [List.length_cons]
        omega
      rw [List.cons_append, h, List.get?_cons_succ]
      exact ih

theorem drop_append_len {α : Type} (l r : List α) (i : Nat) :
    (l ++ r).drop (l.length + i) = r.drop i := by
  induction l with
  | nil => simp
  | cons a t ih =>
      have h : (a :: t).length + i = (t.length + i) + 1 := by
        simp only [List.length_cons]
        omega
      rw [List.cons_append, h, List.drop_succ_cons]
      exact ih

theorem readU16_append (pre post : List Nat) (b0 b1 : Nat) :
    readU16 (pre ++ b0 :: b1 :: post) pre.length = some (b0 * 256 + b1) := by
  unfold readU16
  have h0 : (pre ++ b0 :: b1 :: post).get? pre.length = some b0 := by
    have h := get_append_len pre (b0 :: b1 :: post) 0
    simpa using h
  have h1 : (pre ++ b0 :: b1 :: post).get? (pre.length + 1) = some b1 := by
    have h := get_append_len pre (b0 :: b1 :: post) 1
    simpa using h
  rw [h0, h1]

theorem ntoa_aton (ip : IPv4) : inet_ntoa (inet_aton ip) = some ip := by
  obtain ⟨a, b, c, d⟩ := ip
  simp [inet_aton, inet_ntoa, a.isLt, b.isLt, c.isLt, d.isLt]

theorem packH_some {v : Int} {l : List Nat} (h : packH v = some l) :
    0 ≤ v ∧ v < 65536 ∧ l = [v.toNat / 256, v.toNat % 256] := by
  unfold packH at h
  by_cases hc : 0 ≤ v ∧ v < 65536
  · rw [if_pos hc] at h
    exact ⟨hc.1, hc.2, (Option.some.inj h).symm⟩
  · rw [if_neg hc] at h
    exact absurd h (by simp)

theorem entryAssemble_some {ip : IPv4} {o1 o2 o3 : Option (List Nat)}
    {e : List Nat} (h : entryAssemble ip o1 o2 o3 = some e) :
    ∃ pb ib cb, o1 = some pb ∧ o2 = some ib ∧ o3 = some cb ∧
      e = inet_aton ip ++ pb ++ ib ++ cb := by
  cases o1 with
  | some pb =>
      cases o2 with
      | some ib =>
          cases o3 with
          | some cb =>
              exact ⟨pb, ib, cb, rfl, rfl, rfl, (Option.some.inj h).symm⟩
          | none => exact absurd h (by simp [entryAssemble])
      | none => cases o3 <;> exact absurd h (by simp [entryAssemble])
  | none => cases o2 <;> cases o3 <;> exact absurd h (by simp [entryAssemble])

theorem assembleUpd_some {myIp : IPv4} {o1 o2 : Option (List Nat)}
    {o3 : Option (List (List Nat))} {bs : List Nat}
    (h : assembleUpd myIp o1 o2 o3 = some bs) :
    ∃ nb pb es, o1 = some nb ∧ o2 = some pb ∧ o3 = some es ∧
      bs = nb ++ pb ++ inet_aton myIp ++ es.flatten := by
  cases o1 with
  | some nb =>
      cases o2 with
      | some pb =>
          cases o3 with
          | some es =>
              exact ⟨nb, pb, es, rfl, rfl, rfl, (Option.some.inj h).symm⟩
          | none => exact absurd h (by simp [assembleUpd])
      | none => cases o3 <;> exact absurd h (by simp [assembleUpd])
  | none => cases o2 <;> cases o3 <;> exact absurd h (by simp [assembleUpd])

theorem assembleUpd_none3 (myIp : IPv4) (o1 o2 : Option (List Nat)) :
    assembleUpd myIp o1 o2 none = none := by
  cases o1 <;> cases o2 <;> rfl

theorem entryB_some {servers : Registry}
    {rt : List (Int × (Option Int × Cost))} {d : Int} {e : List Nat}
    (h : entryB servers rt d = some e) :
    ∃ ip port pb ib cb, alookup d servers = some (ip, port) ∧
      packH port = some pb ∧ packH d = some ib ∧
      packH (costFieldOf (rtCostOf rt d)) = some cb ∧
      e = inet_aton ip ++ pb ++ ib ++ cb := by
  unfold entryB at h
  cases hl : alookup d servers with
  | none =>
      rw [hl] at h
      exact Option.noConfusion (h : (none : Option (List Nat)) = some e)
  | some pr =>
      rw [hl] at h
      obtain ⟨ip, port⟩ := pr
      have h2 : entryAssemble ip (packH port) (packH d)
          (packH (costFieldOf (rtCostOf rt d))) = some e := h
      obtain ⟨pb, ib, cb, h3, h4, h5, h6⟩ := entryAssemble_some h2
      exact ⟨ip, port, pb, ib, cb, rfl, h3, h4, h5, h6⟩

theorem entryB_length {servers : Registry}
    {rt : List (Int × (Option Int × Cost))} {d : Int} {e : List Nat}
    (h : entryB servers rt d = some e) : e.length = 10 := by
  obtain ⟨ip, port, pb, ib, cb, _, h1, h2, h3, h4⟩ := entryB_some h
  obtain ⟨_, _, hpb⟩ := packH_some h1
  obtain ⟨_, _, hib⟩ := packH_some h2
  obtain ⟨_, _, hcb⟩ := packH_some h3
  subst h4 hpb hib hcb
  simp [inet_aton]

theorem omapM_cons_some {α β : Type} {f : α → Option β} {a : α} {l : List α}
    {es : List β} (h : omapM f (a :: l) = some es) :
    ∃ b bs, f a = some b ∧ omapM f l = some bs ∧ es = b :: bs := by
  unfold omapM at h
  cases hf : f a with
  | none => simp [hf] at h
  | some b =>
      cases hm : omapM f l with
      | none => simp [hf, hm] at h
      | some bs =>
          simp [hf, hm] at h
          exact ⟨b, bs, rfl, rfl, h.symm⟩

theorem omapM_none_of_mem {α β : Type} (f : α → Option β) (l : List α)
    (a : α) (ha : a ∈ l) (hf : f a = none) : omapM f l = none := by
  induction l with
  | nil => simp at ha
  | cons x rest ih =>
      rcases List.mem_cons.mp ha with h | h
      · rw [omapM, ← h, hf]
        rfl
      · rw [omapM, ih h]
        cases f x <;> rfl

theorem omapM_flatten_length (servers : Registry)
    (rt : List (Int × (Option Int × Cost))) :
    ∀ (ids : List Int) (es : List (List Nat)),
    omapM (entryB servers rt) ids = some es →
    es.flatten.length = 10 * ids.length := by
  intro ids
  induction ids with
  | nil =>
      intro es hm
      have he : es = [] := by simpa [omapM] using hm.symm
      subst he
      rfl
  | cons d rest ih =>
      intro es hm
      obtain ⟨e, es', hfa, hrest, he⟩ := omapM_cons_some hm
      subst he
      have h1 := entryB_length hfa
      have h2 := ih es' hrest
      simp only [List.flatten_cons, List.length_append, List.length_cons,
        h1, h2]
      omega

theorem omapM_flatten_drop (servers : Registry)
    (rt : List (Int × (Option Int × Cost))) :
    ∀ (ids : List Int) (es : List (List Nat)) (i : Nat)
      (hi : i < ids.length),
    omapM (entryB servers rt) ids = some es →
    ∃ e tail, entryB servers rt (ids.get ⟨i, hi⟩) = some e ∧
      es.flatten.drop (10 * i) = e ++ tail := by
  intro ids
  induction ids with
  | nil =>
      intro es i hi
      exact absurd hi (by simp)
  | cons d rest ih =>
      intro es i hi hm
      obtain ⟨e, es', hfa, hrest, he⟩ := omapM_cons_some hm
      subst he
      cases i with
      | zero =>
          exact ⟨e, es'.flatten, hfa, by simp [List.flatten_cons]⟩
      | succ j =>
          have hj : j < rest.length := by simpa using hi
          obtain ⟨e', tail, hfa', hdrop⟩ := ih es' j hj hrest
          refine ⟨e', tail, hfa', ?_⟩
          rw [List.flatten_cons]
          have h10 : 10 * (j + 1) = e.length + 10 * j := by
            rw [entryB_length hfa]
            omega
          rw [h10, drop_append_len]
          exact hdrop

theorem alookup_of_mem_keys {α : Type} {m : List (Int × α)} {d : Int}
    (h : d ∈ keys m) : ∃ v, alookup d m = some v := by
  induction m with
  | nil => simp [keys] at h
  | cons p rest ih =>
      by_cases hp : p.1 = d
      · exact ⟨p.2, by simp [alookup, hp]⟩
      · simp only [keys, List.map_cons, List.mem_cons] at h
        rcases h with h | h
        · exact absurd h.symm hp
        · obtain ⟨v, hv⟩ := ih h
          exact ⟨v, by simp [alookup, hp, hv]⟩

theorem entryAssemble_none3 (ip : IPv4) (o1 o2 : Option (List Nat)) :
    entryAssemble ip o1 o2 none = none := by
  cases o1 <;> cases o2 <;> rfl

theorem alookup_foldl_keys_not_mem (g : Int → Cost) (d : Int) :
    ∀ (ids : List Int), d ∉ ids → ∀ start : List (Int × Cost),
    alookup d (ids.foldl (fun dv x => ainsert x (g x) dv) start) =
      alookup d start := by
  intro ids
  induction ids with
  | nil =>
      intro _ start
      rfl
  | cons x rest ih =>
      intro hd start
      simp only [List.mem_cons, not_or] at hd
      simp only [List.foldl_cons]
      rw [ih hd.2, alookup_ainsert, if_neg (fun hc => hd.1 hc.symm)]

theorem alookup_foldl_keys_mem (g : Int → Cost) (d : Int) :
    ∀ (ids : List Int), d ∈ ids → ∀ start : List (Int × Cost),
    alookup d (ids.foldl (fun dv x => ainsert x (g x) dv) start) =
      some (g d) := by
  intro ids
  induction ids with
  | nil =>
      intro hd
      simp at hd
  | cons x rest ih =>
      intro hd start
      simp only [List.foldl_cons]
      by_cases hr : d ∈ rest
      · exact ih hr _
      · have hx : d = x := by
          rcases List.mem_cons.mp hd with h | h
          · exact h
          · exact absurd h hr
        subst hx
        rw [alookup_foldl_keys_not_mem g d rest hr, alookup_ainsert,
          if_pos rfl]

theorem keys_foldl_ainsert (g : Int → Cost) :
    ∀ (ids : List Int) (start : List (Int × Cost)),
    (∀ x ∈ ids, x ∉ keys start) → ids.Nodup →
    keys (ids.foldl (fun dv x => ainsert x (g x) dv) start) =
      keys start ++ ids := by
  intro ids
  induction ids with
  | nil =>
      intro start _ _
      simp
  | cons x rest ih =>
      intro start hx hnd
      simp only [List.nodup_cons] at hnd
      simp only [List.foldl_cons]
      have hxk : x ∉ keys start := hx x (List.mem_cons_self x rest)
      have hrest : ∀ y ∈ rest, y ∉ keys (ainsert x (g x) start) := by
        intro y hy hmem
        rw [keys_ainsert_not_mem (g x) hxk] at hmem
        rcases List.mem_append.mp hmem with h | h
        · exact hx y (List.mem_cons_of_mem x hy) h
        · rw [List.mem_singleton] at h
          exact hnd.1 (h ▸ hy)
      rw [ih _ hrest hnd.2, keys_ainsert_not_mem (g x) hxk,
        List.append_assoc, List.singleton_append]

theorem findSender_self (servers : Registry) (myId : Int) (myIp : IPv4)
    (myPort : Int) (hmem : (myId, (myIp, myPort)) ∈ servers)
    (hdist : servers.Pairwise (fun p q => p.2 ≠ q.2)) :
    findSender servers myIp myPort = some myId := by
  induction servers with
  | nil => simp at hmem
  | cons p rest ih =>
      obtain ⟨sid, addr⟩ := p
      rcases List.mem_cons.mp hmem with h | h
      · rw [← h]
        simp [findSender]
      · have hne : addr ≠ (myIp, myPort) :=
          (List.pairwise_cons.mp hdist).1 _ h
        rw [findSender, if_neg (fun hc => hne (Prod.ext hc.1 hc.2))]
        exact ih h ((List.pairwise_cons.mp hdist).2)

theorem decodeCost_wire {c : Cost} (h0 : 0 ≤ costFieldOf c) :
    decodeCost (costFieldOf c).toNat = wireCostOf c := by
  unfold decodeCost wireCostOf
  by_cases hc : costFieldOf c = 65535
  · have h1 : (costFieldOf c).toNat = 65535 := by
      rw [hc]
      rfl
    rw [if_pos h1, if_pos hc]
  · have hne : (costFieldOf c).toNat ≠ 65535 := by
      intro hn
      apply hc
      rw [← Int.toNat_of_nonneg h0, hn]
      rfl
    rw [if_neg hne, if_neg hc]

theorem readEntries_roundtrip (servers : Registry)
    (rt : List (Int × (Option Int × Cost))) :
    ∀ (ids : List Int) (es : List (List Nat)) (pre : List Nat)
      (dv0 : List (Int × Cost)),
    omapM (entryB servers rt) ids = some es →
    readEntries (pre ++ es.flatten) pre.length ids.length dv0 =
      some (ids.foldl
        (fun dv d => ainsert d (wireCostOf (rtCostOf rt d)) dv) dv0) := by
  intro ids
  induction ids with
  | nil =>
      intro es pre dv0 hm
      have he : es = [] := by simpa [omapM] using hm.symm
      subst he
      rfl
  | cons d rest ih =>
      intro es pre dv0 hm
      obtain ⟨e, es', hfa, hrest, he⟩ := omapM_cons_some hm
      subst he
      obtain ⟨ip, port, pb, ib, cb, hl, h1, h2, h3, h4⟩ := entryB_some hfa
      obtain ⟨hport0, hport1, hpb⟩ := packH_some h1
      obtain ⟨hd0, hd1, hib⟩ := packH_some h2
      obtain ⟨hc0, hc1, hcb⟩ := packH_some h3
      subst h4 hpb hib hcb
      have hntoa : inet_ntoa
          (((pre ++ ((inet_aton ip ++
              [port.toNat / 256, port.toNat % 256] ++
              [d.toNat / 256, d.toNat % 256] ++
              [(costFieldOf (rtCostOf rt d)).toNat / 256,
                (costFieldOf (rtCostOf rt d)).toNat % 256]) ::
              es').flatten).drop pre.length).take 4) = some ip := by
        rw [show pre ++ ((inet_aton ip ++
              [port.toNat / 256, port.toNat % 256] ++
              [d.toNat / 256, d.toNat % 256] ++
              [(costFieldOf (rtCostOf rt d)).toNat / 256,
                (costFieldOf (rtCostOf rt d)).toNat % 256]) ::
              es').flatten =
            pre ++ (inet_aton ip ++
              ([port.toNat / 256, port.toNat % 256] ++
                ([d.toNat / 256, d.toNat % 256] ++
                  ([(costFieldOf (rtCostOf rt d)).toNat / 256,
                    (costFieldOf (rtCostOf rt d)).toNat % 256] ++
                    es'.flatten))))
          from by simp [List.flatten_cons, List.append_assoc]]
        rw [List.drop_left,
          show (4 : Nat) = (inet_aton ip).length from rfl, List.take_left]
        exact ntoa_aton ip
      have hport : readU16
          (pre ++ ((inet_aton ip ++
              [port.toNat / 256, port.toNat % 256] ++
              [d.toNat / 256, d.toNat % 256] ++
              [(costFieldOf (rtCostOf rt d)).toNat / 256,
                (costFieldOf (rtCostOf rt d)).toNat % 256]) ::
              es').flatten) (pre.length + 4) = some port.toNat := by
        rw [show pre ++ ((inet_aton ip ++
              [port.toNat / 256, port.toNat % 256] ++
              [d.toNat / 256, d.toNat % 256] ++
              [(costFieldOf (rtCostOf rt d)).toNat / 256,
                (costFieldOf (rtCostOf rt d)).toNat % 256]) ::
              es').flatten =
            (pre ++ inet_aton ip) ++
              port.toNat / 256 :: port.toNat % 256 ::
                ([d.toNat / 256, d.toNat % 256] ++
                  ([(costFieldOf (rtCostOf rt d)).toNat / 256,
                    (costFieldOf (rtCostOf rt d)).toNat % 256] ++
                    es'.flatten))
          from by simp [List.flatten_cons, List.append_assoc],
          show pre.length + 4 = (pre ++ inet_aton ip).length from by
            simp [inet_aton],
          readU16_append]
        rw [Nat.div_add_mod']
      have hid : readU16
          (pre ++ ((inet_aton ip ++
              [port.toNat / 256, port.toNat % 256] ++
              [d.toNat / 256, d.toNat % 256] ++
              [(costFieldOf (rtCostOf rt d)).toNat / 256,
                (costFieldOf (rtCostOf rt d)).toNat % 256]) ::
              es').flatten) (pre.length + 6) = some d.toNat := by
        rw [show pre ++ ((inet_aton ip ++
              [port.toNat / 256, port.toNat % 256] ++
              [d.toNat / 256, d.toNat % 256] ++
              [(costFieldOf (rtCostOf rt d)).toNat / 256,
                (costFieldOf (rtCostOf rt d)).toNat % 256]) ::
              es').flatten =
            (pre ++ inet_aton ip ++ [port.toNat / 256, port.toNat % 256]) ++
              d.toNat / 256 :: d.toNat % 256 ::
                ([(costFieldOf (rtCostOf rt d)).toNat / 256,
                  (costFieldOf (rtCostOf rt d)).toNat % 256] ++ es'.flatten)
          from by simp [List.flatten_cons, List.append_assoc],
          show pre.length + 6 =
              (pre ++ inet_aton ip ++
                [port.toNat / 256, port.toNat % 256]).length from by
            simp [inet_aton],
          readU16_append]
        rw [Nat.div_add_mod']
      have hcost : readU16
          (pre ++ ((inet_aton ip ++
              [port.toNat / 256, port.toNat % 256] ++
              [d.toNat / 256, d.toNat % 256] ++
              [(costFieldOf (rtCostOf rt d)).toNat / 256,
                (costFieldOf (rtCostOf rt d)).toNat % 256]) ::
              es').flatten) (pre.length + 8) =
          some (costFieldOf (rtCostOf rt d)).toNat := by
        rw [show pre ++ ((inet_aton ip ++
              [port.toNat / 256, port.toNat % 256] ++
              [d.toNat / 256, d.toNat % 256] ++
              [(costFieldOf (rtCostOf rt d)).toNat / 256,
                (costFieldOf (rtCostOf rt d)).toNat % 256]) ::
              es').flatten =
            (pre ++ inet_aton ip ++ [port.toNat / 256, port.toNat % 256] ++
                [d.toNat / 256, d.toNat % 256]) ++
              (costFieldOf (rtCostOf rt d)).toNat / 256 ::
                (costFieldOf (rtCostOf rt d)).toNat % 256 :: es'.flatten
          from by simp [List.flatten_cons, List.append_assoc],
          show pre.length + 8 =
              (pre ++ inet_aton ip ++ [port.toNat / 256, port.toNat % 256] ++
                [d.toNat / 256, d.toNat % 256]).length from by
            simp [inet_aton],
          readU16_append]
        rw [Nat.div_add_mod']
      have hstep : readEntryStep
          (pre ++ ((inet_aton ip ++
              [port.toNat / 256, port.toNat % 256] ++
              [d.toNat / 256, d.toNat % 256] ++
              [(costFieldOf (rtCostOf rt d)).toNat / 256,
                (costFieldOf (rtCostOf rt d)).toNat % 256]) ::
              es').flatten) pre.length =
          some (ip, port.toNat, d.toNat, (costFieldOf (rtCostOf rt d)).toNat) := by
        unfold readEntryStep
        rw [hntoa, hport, hid, hcost]
        rfl
      rw [List.length_cons, readEntries, hstep]
      show readEntries
          (pre ++ ((inet_aton ip ++
              [port.toNat / 256, port.toNat % 256] ++
              [d.toNat / 256, d.toNat % 256] ++
              [(costFieldOf (rtCostOf rt d)).toNat / 256,
                (costFieldOf (rtCostOf rt d)).toNat % 256]) ::
              es').flatten) (pre.length + 10) rest.length
          (ainsert ((d.toNat : Nat) : Int)
            (decodeCost (costFieldOf (rtCostOf rt d)).toNat) dv0) =
        some ((d :: rest).foldl
          (fun dv x => ainsert x (wireCostOf (rtCostOf rt x)) dv) dv0)
      rw [Int.toNat_of_nonneg hd0, decodeCost_wire hc0, List.foldl_cons]
      rw [show pre ++ ((inet_aton ip ++
              [port.toNat / 256, port.toNat % 256] ++
              [d.toNat / 256, d.toNat % 256] ++
              [(costFieldOf (rtCostOf rt d)).toNat / 256,
                (costFieldOf (rtCostOf rt d)).toNat % 256]) ::
              es').flatten =
            (pre ++ (inet_aton ip ++
              [port.toNat / 256, port.toNat % 256] ++
              [d.toNat / 256, d.toNat % 256] ++
              [(costFieldOf (rtCostOf rt d)).toNat / 256,
                (costFieldOf (rtCostOf rt d)).toNat % 256])) ++ es'.flatten
          from by simp [List.flatten_cons, List.append_assoc],
        show pre.length + 10 =
            (pre ++ (inet_aton ip ++
              [port.toNat / 256, port.toNat % 256] ++
              [d.toNat / 256, d.toNat % 256] ++
              [(costFieldOf (rtCostOf rt d)).toNat / 256,
                (costFieldOf (rtCostOf rt d)).toNat % 256])).length from by
          simp [inet_aton]]
      exact ih es' _ _ hrest

theorem unpack_pack_core (servers : Registry) (myPort : Int) (myIp : IPv4)
    (rt : List (Int × (Option Int × Cost))) (bs : List Nat)
    (hp : pack_update servers myPort myIp rt = some bs) :
    unpack_update servers bs =
      some (findSender servers myIp myPort,
        (sortInts (keys servers)).foldl
          (fun dv d => ainsert d (wireCostOf (rtCostOf rt d)) dv) []) := by
  unfold pack_update at hp
  obtain ⟨nb, pb, es, h1, h2, h3, h4⟩ := assembleUpd_some hp
  obtain ⟨hn0, hn1, hnb⟩ := packH_some h1
  obtain ⟨hp0, hp1, hpb⟩ := packH_some h2
  subst h4 hnb hpb
  have hNt : (((sortInts (keys servers)).length : Int)).toNat =
      (sortInts (keys servers)).length := by simp
  have hcons : ([(((sortInts (keys servers)).length : Int)).toNat / 256,
        (((sortInts (keys servers)).length : Int)).toNat % 256] ++
      [myPort.toNat / 256, myPort.toNat % 256] ++ inet_aton myIp ++
      es.flatten) =
      [] ++ (((sortInts (keys servers)).length : Int)).toNat / 256 ::
        (((sortInts (keys servers)).length : Int)).toNat % 256 ::
        ([myPort.toNat / 256, myPort.toNat % 256] ++
          (inet_aton myIp ++ es.flatten)) := by
    simp [List.append_assoc]
  have hread0 : readU16
      ([(((sortInts (keys servers)).length : Int)).toNat / 256,
          (((sortInts (keys servers)).length : Int)).toNat % 256] ++
        [myPort.toNat / 256, myPort.toNat % 256] ++ inet_aton myIp ++
        es.flatten) 0 =
      some (sortInts (keys servers)).length := by
    rw [hcons, show (0 : Nat) = ([] : List Nat).length from rfl,
      readU16_append, Nat.div_add_mod', hNt]
  have hread2 : readU16
      ([(((sortInts (keys servers)).length : Int)).toNat / 256,
          (((sortInts (keys servers)).length : Int)).toNat % 256] ++
        [myPort.toNat / 256, myPort.toNat % 256] ++ inet_aton myIp ++
        es.flatten) 2 =
      some myPort.toNat := by
    rw [show ([(((sortInts (keys servers)).length : Int)).toNat / 256,
          (((sortInts (keys servers)).length : Int)).toNat % 256] ++
        [myPort.toNat / 256, myPort.toNat % 256] ++ inet_aton myIp ++
        es.flatten) =
        [(((sortInts (keys servers)).length : Int)).toNat / 256,
          (((sortInts (keys servers)).length : Int)).toNat % 256] ++
          myPort.toNat / 256 :: myPort.toNat % 256 ::
            (inet_aton myIp ++ es.flatten)
      from by simp [List.append_assoc],
      show (2 : Nat) =
          ([(((sortInts (keys servers)).length : Int)).toNat / 256,
            (((sortInts (keys servers)).length : Int)).toNat % 256] :
              List Nat).length from rfl,
      readU16_append, Nat.div_add_mod']
  have hdrop4 : (([(((sortInts (keys servers)).length : Int)).toNat / 256,
          (((sortInts (keys servers)).length : Int)).toNat % 256] ++
        [myPort.toNat / 256, myPort.toNat % 256] ++ inet_aton myIp ++
        es.flatten).drop 4) = inet_aton myIp ++ es.flatten := by
    rw [show ([(((sortInts (keys servers)).length : Int)).toNat / 256,
          (((sortInts (keys servers)).length : Int)).toNat % 256] ++
        [myPort.toNat / 256, myPort.toNat % 256] ++ inet_aton myIp ++
        es.flatten) =
        ([(((sortInts (keys servers)).length : Int)).toNat / 256,
          (((sortInts (keys servers)).length : Int)).toNat % 256] ++
          [myPort.toNat / 256, myPort.toNat % 256]) ++
          (inet_aton myIp ++ es.flatten)
      from by simp [List.append_assoc],
      show (4 : Nat) =
          (([(((sortInts (keys servers)).length : Int)).toNat / 256,
            (((sortInts (keys servers)).length : Int)).toNat % 256] ++
            [myPort.toNat / 256, myPort.toNat % 256]) : List Nat).length
        from by simp,
      List.drop_left]
  have hntoa4 : inet_ntoa
      ((([(((sortInts (keys servers)).length : Int)).toNat / 256,
            (((sortInts (keys servers)).length : Int)).toNat % 256] ++
          [myPort.toNat / 256, myPort.toNat % 256] ++ inet_aton myIp ++
          es.flatten).drop 4).take 4) = some myIp := by
    rw [hdrop4, show (4 : Nat) = (inet_aton myIp).length from rfl,
      List.take_left]
    exact ntoa_aton myIp
  have hreadE : readEntries
      ([(((sortInts (keys servers)).length : Int)).toNat / 256,
          (((sortInts (keys servers)).length : Int)).toNat % 256] ++
        [myPort.toNat / 256, myPort.toNat % 256] ++ inet_aton myIp ++
        es.flatten) 8 (sortInts (keys servers)).length [] =
      some ((sortInts (keys servers)).foldl
        (fun dv d => ainsert d (wireCostOf (rtCostOf rt d)) dv) []) := by
    have h := readEntries_roundtrip servers rt (sortInts (keys servers)) es
      ([(((sortInts (keys servers)).length : Int)).toNat / 256,
          (((sortInts (keys servers)).length : Int)).toNat % 256] ++
        [myPort.toNat / 256, myPort.toNat % 256] ++ inet_aton myIp) [] h3
    rw [show ([(((sortInts (keys servers)).length : Int)).toNat / 256,
          (((sortInts (keys servers)).length : Int)).toNat % 256] ++
        [myPort.toNat / 256, myPort.toNat % 256] ++ inet_aton myIp ++
        es.flatten) =
        ([(((sortInts (keys servers)).length : Int)).toNat / 256,
          (((sortInts (keys servers)).length : Int)).toNat % 256] ++
          [myPort.toNat / 256, myPort.toNat % 256] ++ inet_aton myIp) ++
          es.flatten
      from by simp [List.append_assoc],
      show (8 : Nat) =
          (([(((sortInts (keys servers)).length : Int)).toNat / 256,
            (((sortInts (keys servers)).length : Int)).toNat % 256] ++
            [myPort.toNat / 256, myPort.toNat % 256] ++ inet_aton myIp) :
              List Nat).length from by simp [inet_aton]]
    exact h
  unfold unpack_update
  rw [hread0]
  simp only [Option.bind]
  rw [hread2]
  simp only [Option.bind]
  rw [hntoa4]
  simp only [Option.bind]
  rw [hreadE]
  simp only [Option.map]
  rw [Int.toNat_of_nonneg hp0]

theorem entry_slices (bs : List Nat) (off : Nat) (a4 p2 i2 c2 tail : List Nat)
    (ha : a4.length = 4) (hp2 : p2.length = 2) (hi2 : i2.length = 2)
    (hc2 : c2.length = 2)
    (hdrop : bs.drop off = a4 ++ p2 ++ i2 ++ c2 ++ tail) :
    (bs.drop off).take 4 = a4 ∧
    (bs.drop (off + 4)).take 2 = p2 ∧
    (bs.drop (off + 6)).take 2 = i2 ∧
    (bs.drop (off + 8)).take 2 = c2 := by
  have hA : bs.drop off = a4 ++ (p2 ++ i2 ++ c2 ++ tail) := by
    rw [hdrop]
    simp [List.append_assoc]
  have h4 : bs.drop (off + 4) = p2 ++ (i2 ++ c2 ++ tail) := by
    rw [← List.drop_drop, hA, ← ha, List.drop_left]
    simp [List.append_assoc]
  have h6 : bs.drop (off + 6) = i2 ++ (c2 ++ tail) := by
    rw [show off + 6 = (off + 4) + 2 from by omega, ← List.drop_drop, h4,
      ← hp2, List.drop_left]
    simp [List.append_assoc]
  have h8 : bs.drop (off + 8) = c2 ++ tail := by
    rw [show off + 8 = (off + 6) + 2 from by omega, ← List.drop_drop, h6,
      ← hi2, List.drop_left]
  refine ⟨?_, ?_, ?_, ?_⟩
  · rw [hA, ← ha, List.take_left]
  · rw [h4, ← hp2, List.take_left]
  · rw [h6, ← hi2, List.take_left]
  · rw [h8, ← hc2, List.take_left]

/-! ## C4: datagram layout (10-byte entries, not 12) -/

/-- C4 counterexample: with one server in the registry the packed update
is 18 bytes, not 8 + 12·1 = 20. -/
theorem pack_length_counterexample :
    (pack_update oneServerRegistry 2001 ⟨127, 0, 0, 1⟩ []).map List.length =
      some 18 ∧ (18 : Nat) ≠ 8 + 12 * 1 := by
  refine ⟨by decide, by decide⟩

/-- C4 amended: a successfully packed update is exactly 8 + 10·N bytes
— each entry occupies 10 bytes, not 12 — with the entry count in the
first two bytes and, for the i-th server in ascending id order, the
destination IPv4 at offset 8 + 10·i, the port at 12 + 10·i, the server
id at 14 + 10·i and the cost at 16 + 10·i. -/
theorem pack_update_layout (servers : Registry) (myPort : Int)
    (myIp : IPv4) (rt : List (Int × (Option Int × Cost))) (bs : List Nat)
    (hp : pack_update servers myPort myIp rt = some bs) :
    bs.length = 8 + 10 * servers.length ∧
    bs.take 2 = [servers.length / 256, servers.length % 256] ∧
    ∀ i (hi : i < (sortInts (keys servers)).length),
      ∃ ip port,
        alookup ((sortInts (keys servers)).get ⟨i, hi⟩) servers =
          some (ip, port) ∧
        (bs.drop (8 + 10 * i)).take 4 = inet_aton ip ∧
        (bs.drop (12 + 10 * i)).take 2 =
          [port.toNat / 256, port.toNat % 256] ∧
        (bs.drop (14 + 10 * i)).take 2 =
          [((sortInts (keys servers)).get ⟨i, hi⟩).toNat / 256,
            ((sortInts (keys servers)).get ⟨i, hi⟩).toNat % 256] ∧
        (bs.drop (16 + 10 * i)).take 2 =
          [(costFieldOf (rtCostOf rt
              ((sortInts (keys servers)).get ⟨i, hi⟩))).toNat / 256,
            (costFieldOf (rtCostOf rt
              ((sortInts (keys servers)).get ⟨i, hi⟩))).toNat % 256] := by
  have hslen : (sortInts (keys servers)).length = servers.length := by
    unfold sortInts
    rw [(List.perm_insertionSort (fun a b : Int => a ≤ b)
      (keys servers)).length_eq]
    simp [keys]
  unfold pack_update at hp
  obtain ⟨nb, pb, es, h1, h2, h3, h4⟩ := assembleUpd_some hp
  obtain ⟨hn0, hn1, hnb⟩ := packH_some h1
  obtain ⟨hq0, hq1, hpb⟩ := packH_some h2
  have hNt : (((sortInts (keys servers)).length : Int)).toNat =
      (sortInts (keys servers)).length := by simp
  subst h4 hnb hpb
  have hfl := omapM_flatten_length servers rt _ es h3
  refine ⟨?_, ?_, ?_⟩
  · simp only [List.length_append, List.length_cons, List.length_nil,
      inet_aton, hfl, hslen]
  · rw [show ([(((sortInts (keys servers)).length : Int)).toNat / 256,
        (((sortInts (keys servers)).length : Int)).toNat % 256] ++
        [myPort.toNat / 256, myPort.toNat % 256] ++ inet_aton myIp ++
        es.flatten) =
        [(((sortInts (keys servers)).length : Int)).toNat / 256,
          (((sortInts (keys servers)).length : Int)).toNat % 256] ++
          ([myPort.toNat / 256, myPort.toNat % 256] ++
            (inet_aton myIp ++ es.flatten))
      from by simp [List.append_assoc],
      show (2 : Nat) =
        ([(((sortInts (keys servers)).length : Int)).toNat / 256,
          (((sortInts (keys servers)).length : Int)).toNat % 256] :
            List Nat).length from rfl,
      List.take_left, hNt, hslen]
  · intro i hi
    obtain ⟨e, tail, hfa, hdrop⟩ := omapM_flatten_drop servers rt _ es i hi h3
    obtain ⟨ip, port, pb2, ib2, cb2, hlk, he1, he2, he3, hef⟩ :=
      entryB_some hfa
    obtain ⟨hr0, hr1, hpb2⟩ := packH_some he1
    obtain ⟨hi0, hi1, hib2⟩ := packH_some he2
    obtain ⟨hc0, hc1, hcb2⟩ := packH_some he3
    subst hef hpb2 hib2 hcb2
    have hbs8 : ([(((sortInts (keys servers)).length : Int)).toNat / 256,
        (((sortInts (keys servers)).length : Int)).toNat % 256] ++
        [myPort.toNat / 256, myPort.toNat % 256] ++ inet_aton myIp ++
        es.flatten).drop (8 + 10 * i) =
        inet_aton ip ++
          [port.toNat / 256, port.toNat % 256] ++
          [((sortInts (keys servers)).get ⟨i, hi⟩).toNat / 256,
            ((sortInts (keys servers)).get ⟨i, hi⟩).toNat % 256] ++
          [(costFieldOf (rtCostOf rt
              ((sortInts (keys servers)).get ⟨i, hi⟩))).toNat / 256,
            (costFieldOf (rtCostOf rt
              ((sortInts (keys servers)).get ⟨i, hi⟩))).toNat % 256] ++
          tail := by
      rw [show ([(((sortInts (keys servers)).length : Int)).toNat / 256,
          (((sortInts (keys servers)).length : Int)).toNat % 256] ++
          [myPort.toNat / 256, myPort.toNat % 256] ++ inet_aton myIp ++
          es.flatten) =
          ([(((sortInts (keys servers)).length : Int)).toNat / 256,
            (((sortInts (keys servers)).length : Int)).toNat % 256] ++
            [myPort.toNat / 256, myPort.toNat % 256] ++ inet_aton myIp) ++
            es.flatten
        from by simp [List.append_assoc],
        show 8 + 10 * i =
          (([(((sortInts (keys servers)).length : Int)).toNat / 256,
            (((sortInts (keys servers)).length : Int)).toNat % 256] ++
            [myPort.toNat / 256, myPort.toNat % 256] ++ inet_aton myIp) :
              List Nat).length + 10 * i from by simp [inet_aton],
        drop_append_len, hdrop]
    have hs := entry_slices _ (8 + 10 * i) (inet_aton ip)
      [port.toNat / 256, port.toNat % 256]
      [((sortInts (keys servers)).get ⟨i, hi⟩).toNat / 256,
        ((sortInts (keys servers)).get ⟨i, hi⟩).toNat % 256]
      [(costFieldOf (rtCostOf rt
          ((sortInts (keys servers)).get ⟨i, hi⟩))).toNat / 256,
        (costFieldOf (rtCostOf rt
          ((sortInts (keys servers)).get ⟨i, hi⟩))).toNat % 256]
      tail rfl rfl rfl rfl (by rw [hbs8])
    refine ⟨ip, port, hlk, hs.1, ?_, ?_, ?_⟩
    · rw [show 12 + 10 * i = (8 + 10 * i) + 4 from by omega]
      exact hs.2.1
    · rw [show 14 + 10 * i = (8 + 10 * i) + 6 from by omega]
      exact hs.2.2.1
    · rw [show 16 + 10 * i = (8 + 10 * i) + 8 from by omega]
      exact hs.2.2.2

/-- Concrete instance of `pack_update_layout`: the one-server datagram
is 18 bytes with the count field `[0, 1]`. -/
theorem pack_update_layout_witness :
    ((pack_update oneServerRegistry 2001 ⟨127, 0, 0, 1⟩ []).getD []).length =
      8 + 10 * oneServerRegistry.length ∧
    ((pack_update oneServerRegistry 2001 ⟨127, 0, 0, 1⟩ []).getD []).take 2 =
      [oneServerRegistry.length / 256, oneServerRegistry.length % 256] :=
  ⟨(pack_update_layout oneServerRegistry 2001 ⟨127, 0, 0, 1⟩ [] _
      (by decide)).1,
    (pack_update_layout oneServerRegistry 2001 ⟨127, 0, 0, 1⟩ [] _
      (by decide)).2.1⟩

/-! ## C5: the decode of a packed update -/

/-- C5 counterexample: a finite routing cost of 65535 is packed as
0xFFFF and decoded by the peer as infinity, so the decoded entry does
not equal the sender's routing cost. -/
theorem unpack_pack_counterexample :
    (pack_update oneServerRegistry 2001 ⟨127, 0, 0, 1⟩
        [(1, (none, Cost.fin 65535))]).bind
      (unpack_update oneServerRegistry) =
      some (some 1, [(1, Cost.infty)]) ∧
    alookup 1 [((1 : Int), ((none : Option Int), Cost.fin 65535))] =
      some (none, Cost.fin 65535) ∧
    Cost.infty ≠ Cost.fin 65535 := by
  refine ⟨by decide, by decide, by decide⟩

/-- C5 amended: on a peer with the identical registry, decoding a packed
update recovers the sender id (by exact (ip, port) match) and one entry
per known server whose cost is the wire image of the sender's routing
cost: infinity goes to 0xFFFF and back to infinity, a finite cost is
truncated to its integer part (so it round-trips exactly when integral),
and a finite integer part of 65535 also decodes as infinity. -/
theorem unpack_pack_roundtrip (servers : Registry) (myId : Int)
    (myIp : IPv4) (myPort : Int) (rt : List (Int × (Option Int × Cost)))
    (bs : List Nat) (hnd : NodupKeys servers)
    (hme : alookup myId servers = some (myIp, myPort))
    (hdist : servers.Pairwise (fun p q => p.2 ≠ q.2))
    (hp : pack_update servers myPort myIp rt = some bs) :
    ∃ dv, unpack_update servers bs = some (some myId, dv) ∧
      keys dv = sortInts (keys servers) ∧
      ∀ d ∈ keys servers, alookup d dv = some (wireCostOf (rtCostOf rt d)) := by
  have hcore := unpack_pack_core servers myPort myIp rt bs hp
  have hsender : findSender servers myIp myPort = some myId :=
    findSender_self servers myId myIp myPort (alookup_mem hme) hdist
  have hperm := List.perm_insertionSort (fun a b : Int => a ≤ b) (keys servers)
  refine ⟨_, by rw [hcore, hsender], ?_, ?_⟩
  · have hndS : (sortInts (keys servers)).Nodup := by
      unfold sortInts
      exact hperm.nodup_iff.mpr hnd
    have hk := keys_foldl_ainsert (fun d => wireCostOf (rtCostOf rt d))
      (sortInts (keys servers)) [] (by intro x _ hx; simp [keys] at hx) hndS
    simpa [keys] using hk
  · intro d hd
    have hd' : d ∈ sortInts (keys servers) := by
      unfold sortInts
      exact hperm.mem_iff.mpr hd
    exact alookup_foldl_keys_mem _ d _ hd' []

/-- Concrete instance of `unpack_pack_roundtrip`: an integral cost of 7
round-trips exactly. -/
theorem unpack_pack_roundtrip_witness :
    ∃ dv, unpack_update oneServerRegistry
        ((pack_update oneServerRegistry 2001 ⟨127, 0, 0, 1⟩
          [(1, (none, Cost.fin 7))]).getD []) = some (some 1, dv) ∧
      keys dv = sortInts (keys oneServerRegistry) ∧
      ∀ d ∈ keys oneServerRegistry, alookup d dv =
        some (wireCostOf (rtCostOf [(1, (none, Cost.fin 7))] d)) :=
  unpack_pack_roundtrip oneServerRegistry 1 ⟨127, 0, 0, 1⟩ 2001
    [(1, (none, Cost.fin 7))] _ (by decide) (by decide)
    (by simp [oneServerRegistry]) (by decide)

/-! ## C10: partiality of pack_update on large finite costs -/

/-- C10: a finite routing cost whose integer part is at least 65536
cannot be packed — `pack_update` raises, and `send_to_neighbors` catches
the error and sends nothing that tick; and a finite cost with integer
part exactly 65535 is encoded as 0xFFFF, so peers decode it as
infinity. -/
theorem pack_cost_boundary (servers : Registry) (myPort : Int)
    (myIp : IPv4) (rt : List (Int × (Option Int × Cost)))
    (failp : Int → Bool) (st : DVState) (d : Int) (h : Option Int) (q : ℚ)
    (hd : d ∈ keys servers) (hr : alookup d rt = some (h, Cost.fin q)) :
    (65536 ≤ ratTrunc q →
      pack_update servers myPort myIp rt = none ∧
      (st.routing = rt →
        send_to_neighbors failp servers myPort myIp st = ([], true))) ∧
    (ratTrunc q = 65535 →
      ∀ bs, pack_update servers myPort myIp rt = some bs →
      ∃ sid dv, unpack_update servers bs = some (sid, dv) ∧
        alookup d dv = some Cost.infty) := by
  have hcf : costFieldOf (rtCostOf rt d) = ratTrunc q := by
    unfold rtCostOf adflt
    rw [hr]
    rfl
  have hd' : d ∈ sortInts (keys servers) := by
    unfold sortInts
    exact (List.perm_insertionSort (fun a b : Int => a ≤ b)
      (keys servers)).mem_iff.mpr hd
  constructor
  · intro hbig
    have hpackH : packH (costFieldOf (rtCostOf rt d)) = none := by
      unfold packH
      rw [hcf, if_neg (by intro hcon; omega)]
    have hentry : entryB servers rt d = none := by
      unfold entryB
      obtain ⟨v, hv⟩ := alookup_of_mem_keys hd
      rw [hv]
      obtain ⟨ip, port⟩ := v
      rw [hpackH]
      exact entryAssemble_none3 ip _ _
    have homap : omapM (entryB servers rt) (sortInts (keys servers)) = none :=
      omapM_none_of_mem _ _ d hd' hentry
    have hpack : pack_update servers myPort myIp rt = none := by
      unfold pack_update
      rw [homap]
      exact assembleUpd_none3 myIp _ _
    refine ⟨hpack, fun hrt => ?_⟩
    rw [send_to_neighbors, hrt, hpack]
    rfl
  · intro h65535 bs hbs
    refine ⟨_, _, unpack_pack_core servers myPort myIp rt bs hbs, ?_⟩
    rw [alookup_foldl_keys_mem _ d _ hd' []]
    unfold wireCostOf
    rw [hcf, h65535, if_pos rfl]

/-- Concrete instance of `pack_cost_boundary`: cost 70000 makes the
whole broadcast fail, and cost 65535 decodes as infinity. -/
theorem pack_cost_boundary_witness :
    (pack_update oneServerRegistry 2001 ⟨127, 0, 0, 1⟩
        [(1, (none, Cost.fin 70000))] = none ∧
      ({ exampleNetState with routing := [(1, (none, Cost.fin 70000))] }.routing
          = [((1 : Int), ((none : Option Int), Cost.fin 70000))] →
        send_to_neighbors failAt2 oneServerRegistry 2001 ⟨127, 0, 0, 1⟩
          { exampleNetState with
            routing := [(1, (none, Cost.fin 70000))] } = ([], true))) ∧
    (∃ sid dv, unpack_update oneServerRegistry
        ((pack_update oneServerRegistry 2001 ⟨127, 0, 0, 1⟩
          [(1, (none, Cost.fin 65535))]).getD []) = some (sid, dv) ∧
      alookup 1 dv = some Cost.infty) :=
  ⟨(pack_cost_boundary oneServerRegistry 2001 ⟨127, 0, 0, 1⟩
      [(1, (none, Cost.fin 70000))] failAt2
      { exampleNetState with routing := [(1, (none, Cost.fin 70000))] }
      1 none 70000 (by decide) (by decide)).1 (by decide),
    (pack_cost_boundary oneServerRegistry 2001 ⟨127, 0, 0, 1⟩
      [(1, (none, Cost.fin 65535))] failAt2 exampleNetState
      1 none 65535 (by decide) (by decide)).2 (by decide) _ (by decide)⟩

end DV
